import Mathlib

/-!
# Rotating log file (package `entry`, file `logfile.go`)

A shallow embedding of `LogFile`, `NewLogFile`, `LogFile.Write` and
`LogFile.Rotate`.  The Go code talks to the operating system through
`os.Stat`, `os.Rename`, `os.Create`, `(*os.File).Write`, `(*os.File).Close`
and `time.Now().Format`; these are library calls, so they are modelled here
as functions on an explicit `World`:

* the regular files on disk: `dir` gives, by inode number, the name of each
  file (`none` for a file that has lost its name), `store` its content; a file
  has at most one name, so there are no hard links, and there are no symbolic
  links or sub-directories;
* the table of `os.File` objects (`files`), a `*os.File` being an index into
  that table and `nil` being `none`;
* the calendar date of the wall clock (`today`);
* a `script` of outcomes for the calls that the environment may fail
  (`os.Stat`, `os.Rename`, `os.Create`, `Write`, `Close`), consumed one entry
  per call;
* a ghost `trace` of the calls made, in order.

`os.Stat` fails when the name is not in the directory and whenever the
environment fails it, also on a name that is there.  `os.Rename` replaces its
target.

The methods are first embedded as functions that run one call to its end.
For the interplay of `Write` and `Rotate`, the same statements are then laid
out as control points of goroutines that a scheduler interleaves
(`Conc.step`); `run_rotator_alone` and `run_writer_alone` tie the two
embeddings together.
-/

namespace entry

/-! ## Dates and `time.Format("2006-01-02")` -/

/-- A calendar date as returned by the wall clock. -/
structure Date where
  year : Nat
  month : Nat
  day : Nat
deriving DecidableEq, Repr

/-- The calendar dates whose year has at most four digits. -/
def Date.valid (d : Date) : Prop :=
  d.year ≤ 9999 ∧ 1 ≤ d.month ∧ d.month ≤ 12 ∧ 1 ≤ d.day ∧ d.day ≤ 31

instance (d : Date) : Decidable d.valid := by
  unfold Date.valid
  infer_instance

/-- The decimal digit character of `d % 10`. -/
def digitChar (d : Nat) : Char := Char.ofNat (48 + d % 10)

/-- Zero-padded decimal rendering, as done by the `time` package for the
layout elements `2006`, `01` and `02`: at least `width` digits, more when the
value needs them. -/
def appendInt : Nat → Nat → List Char
  | 0, x => if x = 0 then [] else Nat.toDigits 10 x
  | w + 1, x => appendInt w (x / 10) ++ [digitChar x]

/-- The result of `t.Format("2006-01-02")`. -/
def Date.format (d : Date) : String :=
  String.mk (appendInt 4 d.year ++ '-' :: appendInt 2 d.month ++ '-' :: appendInt 2 d.day)

/-! ## The world -/

/-- The error values the code can see. -/
inductive Error where
  /-- The name does not exist (`ENOENT`), from `os.Stat` and `os.Rename`. -/
  | notExist (op : String) (path : String)
  /-- A path call failed in the environment with the given `errno`. -/
  | path (op : String) (path : String) (errno : Nat)
  /-- Called on a nil file (`os.ErrInvalid`). -/
  | invalid
  /-- Called on a closed file (`os.ErrClosed`). -/
  | closed (op : String)
  /-- A call on an open file failed in the environment. -/
  | file (op : String) (errno : Nat)
deriving DecidableEq, Repr

/-- An environment failure scheduled for a call. `done` is the number of bytes
a failing write still transfers; other calls ignore it. -/
structure Fault where
  errno : Nat
  done : Nat
deriving DecidableEq, Repr

/-- The state behind a non-nil `*os.File`. -/
structure OpenFile where
  ino : Nat
  off : Nat
  app : Bool
  closed : Bool
deriving DecidableEq, Repr

/-- Calls recorded in the ghost trace. -/
inductive Event where
  | stat (path : String)
  | rename (src dst : String)
  | create (path : String)
  | install (h : Nat)
  | close (h : Nat)
  | write (h : Nat) (b : List Nat)
deriving DecidableEq, Repr

/-- The environment of the program. -/
structure World where
  dir : List (Option String)
  store : Nat → List Nat
  files : List OpenFile
  today : Date
  script : List (Option Fault)
  trace : List Event

/-- The inode bound to a name. -/
def World.lookup (w : World) (p : String) : Option Nat :=
  w.dir.findIdx? (fun n => n == some p)

/-- The content of the resource at a name, if there is one. -/
def World.read (w : World) (p : String) : Option (List Nat) :=
  (w.lookup p).map w.store

/-- The outcome scheduled for the next fallible call. -/
def World.nextFault (w : World) : Option Fault :=
  match w.script with
  | [] => none
  | x :: _ => x

/-- Consume the outcome of the call just made and record the call. -/
def World.advance (w : World) (e : Event) : World :=
  { w with script := w.script.tail, trace := w.trace ++ [e] }

/-- Record a call that the environment cannot fail. -/
def World.log (w : World) (e : Event) : World :=
  { w with trace := w.trace ++ [e] }

/-- The inode number of the next file to be created. -/
def World.freshIno (w : World) : Nat :=
  w.dir.length

/-- Model of `os.Stat(p)`, reduced to its error result: the call fails when the
environment fails it, whatever is at `p`, and when nothing is at `p`. -/
def osStat (w : World) (p : String) : World × Option Error :=
  let w1 := w.advance (.stat p)
  match w.nextFault with
  | some f => (w1, some (.path "stat" p f.errno))
  | none =>
    match w.lookup p with
    | some _ => (w1, none)
    | none => (w1, some (.notExist "stat" p))

/-- The name of a file after `src` has been renamed to `dst`: the file that was
at `dst` has no name any more, the file that was at `src` is at `dst`. -/
def renamed (src dst : String) (n : Option String) : Option String :=
  if n = some dst then none else if n = some src then some dst else n

/-- Model of `os.Rename(src, dst)`: on success `dst` names the file that `src`
named, replacing whatever `dst` named before, and `src` is gone. -/
def osRename (w : World) (src dst : String) : World × Option Error :=
  let w1 := w.advance (.rename src dst)
  match w.nextFault with
  | some f => (w1, some (.path "rename" src f.errno))
  | none =>
    match w.lookup src with
    | none => (w1, some (.notExist "rename" src))
    | some _ =>
      ({ w1 with dir := w.dir.map (renamed src dst) }, none)

/-- Model of `os.Create(p)` (`O_RDWR|O_CREATE|O_TRUNC`): the file at `p` is
created empty, or truncated if it exists, and a new file object positioned at
offset 0 is returned. -/
def osCreate (w : World) (p : String) : World × Except Error Nat :=
  let w1 := w.advance (.create p)
  match w.nextFault with
  | some f => (w1, .error (.path "open" p f.errno))
  | none =>
    let h := w.files.length
    match w.lookup p with
    | some i =>
      ({ w1 with store := Function.update w.store i [],
                 files := w.files ++ [⟨i, 0, false, false⟩] }, .ok h)
    | none =>
      let i := w.freshIno
      ({ w1 with dir := w.dir ++ [some p],
                 store := Function.update w.store i [],
                 files := w.files ++ [⟨i, 0, false, false⟩] }, .ok h)

/-- The bytes of a file after `b` is written at offset `off`; a gap between
the end of the file and `off` reads as zeros. -/
def pwrite (data : List Nat) (off : Nat) (b : List Nat) : List Nat :=
  data.take off ++ List.replicate (off - data.length) 0 ++ b ++ data.drop (off + b.length)

/-- Model of `(*os.File).Write(b)` on the file object `f` (`none` is a nil
pointer). -/
def fileWrite (w : World) (f : Option Nat) (b : List Nat) : World × Nat × Option Error :=
  match f with
  | none => (w, 0, some .invalid)
  | some h =>
    match w.files[h]? with
    | none => (w.log (.write h b), 0, some .invalid)
    | some o =>
      if o.closed then (w.log (.write h b), 0, some (.closed "write"))
      else
        let n := match w.nextFault with
          | some flt => min flt.done b.length
          | none => b.length
        let pos := if o.app then (w.store o.ino).length else o.off
        let w1 := w.advance (.write h b)
        let w2 := { w1 with store := Function.update w.store o.ino (pwrite (w.store o.ino) pos (b.take n)),
                            files := w.files.set h { o with off := pos + n } }
        match w.nextFault with
        | some flt => (w2, n, some (.file "write" flt.errno))
        | none => (w2, n, none)

/-- Model of `(*os.File).Close()`: the descriptor is released whether or not
the environment reports an error. -/
def fileClose (w : World) (h : Nat) : World × Option Error :=
  match w.files[h]? with
  | none => (w.log (.close h), some .invalid)
  | some o =>
    if o.closed then (w.log (.close h), some (.closed "close"))
    else
      let w1 := w.advance (.close h)
      let w2 := { w1 with files := w.files.set h { o with closed := true } }
      match w.nextFault with
      | some flt => (w2, some (.file "close" flt.errno))
      | none => (w2, none)

/-! ## The code of `logfile.go` -/

/-- The struct `LogFile`; the mutex has no state between calls. -/
structure LogFile where
  name : String
  file : Option Nat
deriving DecidableEq, Repr

/-- The archival name used by `Rotate`: `l.name + "." + time.Now().Format("2006-01-02")`. -/
def archiveName (w : World) (l : LogFile) : String :=
  l.name ++ "." ++ w.today.format

/-- First step of `Rotate`: rename the destination file if it already exists. -/
def LogFile.archive (w : World) (l : LogFile) : World × Option Error :=
  match osStat w l.name with
  | (w1, none) =>
    let name := archiveName w1 l
    osRename w1 l.name name
  | (w1, some _) => (w1, none)

/-- The method `(*LogFile).Rotate`; the receiver after the call is returned
next to the world and the error. -/
def LogFile.Rotate (w : World) (l : LogFile) : World × LogFile × Option Error :=
  -- rename dest file if it already exists.
  match l.archive w with
  | (w1, some err) => (w1, l, some err)
  | (w1, none) =>
    -- create new file.
    match osCreate w1 l.name with
    | (w2, .error err) => (w2, l, some err)
    | (w2, .ok file) =>
      -- switch dest file safely.
      let old := l.file
      let l1 : LogFile := { l with file := some file }
      let w3 := w2.log (.install file)
      -- close old file if open.
      match old with
      | some f =>
        match fileClose w3 f with
        | (w4, some err) => (w4, l1, some err)
        | (w4, none) => (w4, l1, none)
      | none => (w3, l1, none)

/-- The constructor `NewLogFile`. -/
def NewLogFile (w : World) (name : String) (file : Option Nat) : World × Except Error LogFile :=
  let rw : LogFile := { file := file, name := name }
  match file with
  | none =>
    match rw.Rotate w with
    | (w1, _, some err) => (w1, .error err)
    | (w1, rw1, none) => (w1, .ok rw1)
  | some _ => (w, .ok rw)

/-- The method `(*LogFile).Write`. -/
def LogFile.Write (w : World) (l : LogFile) (b : List Nat) : World × Nat × Option Error :=
  fileWrite w l.file b

/-- A sequence of `Write` calls, with the result of each. -/
def LogFile.WriteAll (w : World) (l : LogFile) : List (List Nat) → World × List (Nat × Option Error)
  | [] => (w, [])
  | b :: bs =>
    let r := l.Write w b
    let rest := LogFile.WriteAll r.1 l bs
    (rest.1, r.2 :: rest.2)

/-- A sequence of `Write` calls made on the file object itself, with the result
of each. -/
def fileWriteAll (w : World) (f : Option Nat) : List (List Nat) → World × List (Nat × Option Error)
  | [] => (w, [])
  | b :: bs =>
    let r := fileWrite w f b
    let rest := fileWriteAll r.1 f bs
    (rest.1, r.2 :: rest.2)

/-! ## Concurrent execution

Goroutines calling `Write` run next to one call of `Rotate`.  Every goroutine
advances one statement at a time, a scheduler choosing who moves; `Lock`
can only be taken when the mutex is free. -/

/-- Who holds `l.mu`. -/
inductive Owner where
  | writer (i : Nat)
  | rotator
deriving DecidableEq, Repr

/-- Control point of a goroutine that calls `Write` again and again. -/
inductive WriterPc where
  /-- Outside `Write`. -/
  | idle
  /-- At `l.mu.Lock()`. -/
  | lock (b : List Nat)
  /-- Holding the mutex, about to evaluate the receiver `l.file`. -/
  | load (b : List Nat)
  /-- Inside `l.file.Write(b)`, the receiver being `f`. -/
  | call (b : List Nat) (f : Option Nat)
  /-- At `l.mu.Unlock()`, the results in hand. -/
  | unlock (n : Nat) (err : Option Error)
deriving DecidableEq, Repr

/-- Control point of the goroutine that runs `Rotate`. -/
inductive RotatePc where
  /-- At `os.Stat(l.name)`. -/
  | stat
  /-- At `os.Rename(l.name, name)`. -/
  | rename
  /-- At `os.Create(l.name)`. -/
  | create
  /-- At `l.mu.Lock()`, the local `file` holding the new file. -/
  | lock (file : Nat)
  /-- At `file, l.file = l.file, file`. -/
  | swap (file : Nat)
  /-- At `l.mu.Unlock()`, the local `file` holding the old file. -/
  | unlock (old : Option Nat)
  /-- At `if file != nil`. -/
  | close (old : Option Nat)
  /-- Returned. -/
  | done (err : Option Error)
deriving DecidableEq, Repr

/-- The shared sink, the world and the control points of all goroutines.
`created` is a ghost field: the file returned by the `os.Create` of `Rotate`. -/
structure Conc where
  world : World
  name : String
  file : Option Nat
  mu : Option Owner
  writers : List WriterPc
  rot : RotatePc
  created : Option Nat

/-- A choice of the scheduler: writer `i` moves (starting a call with payload
`b` when it is idle), or the rotating goroutine moves. -/
inductive Action where
  | writer (i : Nat) (b : List Nat)
  | rotator
deriving DecidableEq, Repr

/-- One statement of writer `i`. -/
def Conc.stepWriter (s : Conc) (i : Nat) (b : List Nat) : Conc :=
  match s.writers[i]? with
  | none => s
  | some .idle => { s with writers := s.writers.set i (.lock b) }
  | some (.lock c) =>
    match s.mu with
    | none => { s with mu := some (.writer i), writers := s.writers.set i (.load c) }
    | some _ => s
  | some (.load c) => { s with writers := s.writers.set i (.call c s.file) }
  | some (.call c f) =>
    let r := fileWrite s.world f c
    { s with world := r.1, writers := s.writers.set i (.unlock r.2.1 r.2.2) }
  | some (.unlock _ _) => { s with mu := none, writers := s.writers.set i .idle }

/-- One statement of `Rotate`. -/
def Conc.stepRotate (s : Conc) : Conc :=
  match s.rot with
  | .stat =>
    match osStat s.world s.name with
    | (w1, none) => { s with world := w1, rot := .rename }
    | (w1, some _) => { s with world := w1, rot := .create }
  | .rename =>
    match osRename s.world s.name (archiveName s.world ⟨s.name, s.file⟩) with
    | (w1, some err) => { s with world := w1, rot := .done (some err) }
    | (w1, none) => { s with world := w1, rot := .create }
  | .create =>
    match osCreate s.world s.name with
    | (w1, .error err) => { s with world := w1, rot := .done (some err) }
    | (w1, .ok file) => { s with world := w1, rot := .lock file, created := some file }
  | .lock file =>
    match s.mu with
    | none => { s with mu := some .rotator, rot := .swap file }
    | some _ => s
  | .swap file =>
    { s with world := s.world.log (.install file), file := some file, rot := .unlock s.file }
  | .unlock old => { s with mu := none, rot := .close old }
  | .close none => { s with rot := .done none }
  | .close (some f) =>
    match fileClose s.world f with
    | (w1, err) => { s with world := w1, rot := .done err }
  | .done _ => s

/-- One scheduled statement. -/
def Conc.step (s : Conc) : Action → Conc
  | .writer i b => s.stepWriter i b
  | .rotator => s.stepRotate

/-- The state after a whole schedule. -/
def Conc.run (s : Conc) (sched : List Action) : Conc :=
  sched.foldl Conc.step s

/-- The file object `h` exists and is not closed. -/
def World.isOpen (w : World) (h : Nat) : Bool :=
  match w.files[h]? with
  | some o => !o.closed
  | none => false

/-- The start of a concurrent run: `n` idle writers, `Rotate` about to begin,
the mutex free. -/
def Conc.init (w : World) (l : LogFile) (n : Nat) : Conc :=
  { world := w, name := l.name, file := l.file, mu := none,
    writers := List.replicate n .idle, rot := .stat, created := none }

/-- The control points of `Write` between `Lock` and `Unlock`. -/
def WriterPc.holdsLock : WriterPc → Bool
  | .load _ => true
  | .call _ _ => true
  | .unlock _ _ => true
  | _ => false

/-- The invariant of a concurrent run that started with the sink holding the
open file `h0`: a writer between `Lock` and `Unlock` owns the mutex; the
receiver of a `Write` in progress is the file of the sink; the file of the
sink is open and is `h0` or the file created by `Rotate`; and `Rotate` is at a
control point that fits the sink. -/
def Conc.Inv (h0 : Nat) (s : Conc) : Prop :=
  (∀ (i : Nat) pc, s.writers[i]? = some pc → WriterPc.holdsLock pc = true →
    s.mu = some (Owner.writer i)) ∧
  (∀ (i : Nat) b f, s.writers[i]? = some (WriterPc.call b f) → f = s.file) ∧
  (∃ x, s.file = some x ∧ s.world.isOpen x = true ∧ (x = h0 ∨ s.created = some x)) ∧
  (match s.rot with
   | .stat => s.file = some h0 ∧ s.created = none
   | .rename => s.file = some h0 ∧ s.created = none
   | .create => s.file = some h0 ∧ s.created = none
   | .lock f => s.file = some h0 ∧ s.created = some f ∧ f ≠ h0 ∧ s.world.isOpen f = true
   | .swap f => s.file = some h0 ∧ s.created = some f ∧ f ≠ h0 ∧ s.world.isOpen f = true ∧
       s.mu = some .rotator
   | .unlock old => old = some h0 ∧ s.file ≠ some h0 ∧ s.mu = some .rotator
   | .close old => old = some h0 ∧ s.file ≠ some h0
   | .done _ => True)

/-- The byte values of an ASCII string. -/
def bytes (s : String) : List Nat := s.toList.map Char.toNat

/-- An empty world on 2024-03-15. -/
def w0 : World :=
  { dir := [], store := fun _ => [], files := [], today := ⟨2024, 3, 15⟩, script := [], trace := [] }

/-! ## Concrete worlds -/

/-- A log file holding `hello`, open on file object 0, on 2024-03-15. -/
def wHello : World :=
  { dir := [some "app.log"], store := fun i => if i = 0 then bytes "hello" else [],
    files := [⟨0, 5, false, false⟩], today := ⟨2024, 3, 15⟩, script := [], trace := [] }

/-- The sink over `wHello`. -/
def lHello : LogFile := { name := "app.log", file := some 0 }


/-- As `wHello`, with the environment failing the second call (the rename)
with `EACCES`. -/
def wRenameFails : World := { wHello with script := [none, some ⟨13, 0⟩] }

/-- As `wHello`, with the environment failing the third call (the create)
with `ENOSPC`. -/
def wCreateFails : World := { wHello with script := [none, none, some ⟨28, 0⟩] }

/-- As `wHello`, with the environment failing the fourth call (the close) with
`EIO`. -/
def wCloseFails : World := { wHello with script := [none, none, none, some ⟨5, 0⟩] }

/-- As `wHello`, with the environment failing the first call (the existence
check) with `EIO`. -/
def wStatFails : World := { wHello with script := [some ⟨5, 0⟩] }

/-- As `wHello`, with the environment failing the sixth call with `EIO`: after
a first rotation (four calls) and one write, that is the existence check of a
second rotation. -/
def wSecondStatFails : World :=
  { wHello with script := [none, none, none, none, none, some ⟨5, 0⟩] }

/-- As `wHello`, in a directory that cannot be searched: the environment fails
every call on the name with `EACCES`. -/
def wNoSearch : World := { wHello with script := [some ⟨13, 0⟩, some ⟨13, 0⟩] }

/-- No file at `app.log`; file object 0 is an open append-only stream on a
file that has no name; the environment fails the third call (the close) with
`EIO`. -/
def wStream : World :=
  { dir := [none], store := fun _ => [], files := [⟨0, 0, true, false⟩],
    today := ⟨2024, 3, 15⟩, script := [none, none, some ⟨5, 0⟩], trace := [] }

/-- A sink for `app.log` that has no file yet. -/
def lNew : LogFile := { name := "app.log", file := none }

/-- A schedule that stops with writer 0 inside `l.file.Write` while `Rotate`,
having created the new file, waits for the mutex. -/
def schedDuring : List Action :=
  [.writer 0 (bytes "hi"), .writer 0 [], .writer 0 [],
   .rotator, .rotator, .rotator, .rotator]

/-- A schedule that lets `Rotate` run to its end and then stops with writer 1
inside `l.file.Write`. -/
def schedAfter : List Action :=
  [.rotator, .rotator, .rotator, .rotator, .rotator, .rotator, .rotator,
   .writer 1 (bytes "hi"), .writer 1 [], .writer 1 []]
/-! ## Basic facts about the world -/

@[simp] theorem log_dir (w : World) (e : Event) : (w.log e).dir = w.dir := rfl
@[simp] theorem log_store (w : World) (e : Event) : (w.log e).store = w.store := rfl
@[simp] theorem log_files (w : World) (e : Event) : (w.log e).files = w.files := rfl
@[simp] theorem log_today (w : World) (e : Event) : (w.log e).today = w.today := rfl
@[simp] theorem log_script (w : World) (e : Event) : (w.log e).script = w.script := rfl
@[simp] theorem log_trace (w : World) (e : Event) : (w.log e).trace = w.trace ++ [e] := rfl
@[simp] theorem log_nextFault (w : World) (e : Event) : (w.log e).nextFault = w.nextFault := rfl
@[simp] theorem log_lookup (w : World) (e : Event) (p : String) :
    (w.log e).lookup p = w.lookup p := rfl
@[simp] theorem log_read (w : World) (e : Event) (p : String) :
    (w.log e).read p = w.read p := rfl
@[simp] theorem advance_dir (w : World) (e : Event) : (w.advance e).dir = w.dir := rfl
@[simp] theorem advance_store (w : World) (e : Event) : (w.advance e).store = w.store := rfl
@[simp] theorem advance_files (w : World) (e : Event) : (w.advance e).files = w.files := rfl
@[simp] theorem advance_today (w : World) (e : Event) : (w.advance e).today = w.today := rfl
@[simp] theorem advance_script (w : World) (e : Event) :
    (w.advance e).script = w.script.tail := rfl
@[simp] theorem advance_trace (w : World) (e : Event) :
    (w.advance e).trace = w.trace ++ [e] := rfl
@[simp] theorem advance_lookup (w : World) (e : Event) (p : String) :
    (w.advance e).lookup p = w.lookup p := rfl
@[simp] theorem advance_read (w : World) (e : Event) (p : String) :
    (w.advance e).read p = w.read p := rfl
@[simp] theorem advance_freshIno (w : World) (e : Event) :
    (w.advance e).freshIno = w.freshIno := rfl
@[simp] theorem advance_isOpen (w : World) (e : Event) (h : Nat) :
    (w.advance e).isOpen h = w.isOpen h := rfl
@[simp] theorem log_freshIno (w : World) (e : Event) : (w.log e).freshIno = w.freshIno := rfl
@[simp] theorem log_isOpen (w : World) (e : Event) (h : Nat) :
    (w.log e).isOpen h = w.isOpen h := rfl

theorem appendInt_two (x : Nat) (h : x < 100) :
    appendInt 2 x = [digitChar (x / 10), digitChar x] := by
  have h0 : x / 10 / 10 = 0 := by omega
  simp [appendInt, h0]

theorem appendInt_four (x : Nat) (h : x < 10000) :
    appendInt 4 x = [digitChar (x / 1000), digitChar (x / 100), digitChar (x / 10), digitChar x] := by
  have h0 : x / 10000 = 0 := by omega
  simp [appendInt, Nat.div_div_eq_div_mul, h0]

/-- A valid date is rendered as four year digits, a dash, two month digits, a
dash and two day digits. -/
theorem format_shape (d : Date) (h : d.valid) :
    d.format = String.mk
      [digitChar (d.year / 1000), digitChar (d.year / 100), digitChar (d.year / 10),
       digitChar d.year, '-', digitChar (d.month / 10), digitChar d.month, '-',
       digitChar (d.day / 10), digitChar d.day] := by
  obtain ⟨hy, _, hm, _, hd⟩ := h
  simp [Date.format, appendInt_four d.year (by omega), appendInt_two d.month (by omega),
    appendInt_two d.day (by omega)]

theorem archive_ne (s d : String) : s ++ "." ++ d ≠ s := by
  intro h
  have h1 := congrArg String.length h
  simp [String.length_append] at h1
  have : ".".length = 1 := by decide
  omega

/-- A name that is found is the name of the inode found. -/
theorem lookup_get {w : World} {p : String} {i : Nat} (h : w.lookup p = some i) :
    w.dir[i]? = some (some p) := by
  unfold World.lookup at h
  obtain ⟨hlt, hp, -⟩ := List.findIdx?_eq_some_iff_getElem.mp h
  rw [List.getElem?_eq_getElem hlt]
  simpa using hp

theorem lookup_lt_freshIno (w : World) (p : String) (i : Nat) (h : w.lookup p = some i) :
    i < w.freshIno := by
  have := lookup_get h
  exact (List.getElem?_eq_some.mp this).1

/-- Two names that lead to the same inode are the same name. -/
theorem lookup_inj {w : World} {p q : String} {i : Nat} (hp : w.lookup p = some i)
    (hq : w.lookup q = some i) : p = q := by
  have h1 := lookup_get hp
  have h2 := lookup_get hq
  rw [h1] at h2
  simpa using h2

theorem renamed_dst (src dst : String) (hne : src ≠ dst) (n : Option String) :
    (renamed src dst n == some dst) = (n == some src) := by
  unfold renamed
  by_cases h1 : n = some dst
  · subst h1
    simp [Ne.symm hne]
  · by_cases h2 : n = some src
    · subst h2
      simp [hne]
    · simp [h1, h2]

theorem renamed_src (src dst : String) (hne : src ≠ dst) (n : Option String) :
    (renamed src dst n == some src) = false := by
  unfold renamed
  by_cases h1 : n = some dst
  · simp [h1]
  · by_cases h2 : n = some src
    · subst h2
      simp [hne, Ne.symm hne]
    · simp [h1, h2]

theorem renamed_other (src dst p : String) (h1 : p ≠ src) (h2 : p ≠ dst) (n : Option String) :
    (renamed src dst n == some p) = (n == some p) := by
  unfold renamed
  by_cases g1 : n = some dst
  · subst g1
    simp [Ne.symm h2]
  · by_cases g2 : n = some src
    · subst g2
      simp [Ne.symm h1, Ne.symm h2, g1]
    · simp [g1, g2]

theorem findIdx_renamed (dir : List (Option String)) (src dst p : String) (q : Option String → Bool)
    (h : ∀ n, (renamed src dst n == some p) = q n) :
    (dir.map (renamed src dst)).findIdx? (fun n => n == some p) = dir.findIdx? q := by
  rw [List.findIdx?_map]
  congr 1
  funext n
  exact h n

/-- What a successful `os.Rename` did. -/
theorem osRename_ok {w w1 : World} {src dst : String} (h : osRename w src dst = (w1, none)) :
    w.nextFault = none ∧ (∃ i, w.lookup src = some i) ∧
      w1 = { w.advance (.rename src dst) with dir := w.dir.map (renamed src dst) } := by
  unfold osRename at h
  cases hf : w.nextFault with
  | some f => simp [hf] at h
  | none =>
    cases hl : w.lookup src with
    | none => simp [hf, hl] at h
    | some i =>
      simp [hf, hl] at h
      exact ⟨rfl, ⟨i, rfl⟩, h.symm⟩

/-- The names after a successful `os.Rename` to another name. -/
theorem osRename_lookup {w : World} {src dst : String} (hne : src ≠ dst) :
    ({ w.advance (.rename src dst) with dir := w.dir.map (renamed src dst) } : World).lookup dst
        = w.lookup src ∧
    ({ w.advance (.rename src dst) with dir := w.dir.map (renamed src dst) } : World).lookup src
        = none ∧
    ∀ p, p ≠ src → p ≠ dst →
      ({ w.advance (.rename src dst) with dir := w.dir.map (renamed src dst) } : World).lookup p
        = w.lookup p := by
  refine ⟨?_, ?_, ?_⟩
  · exact findIdx_renamed _ _ _ _ _ (renamed_dst src dst hne)
  · show (w.dir.map (renamed src dst)).findIdx? (fun n => n == some src) = none
    rw [findIdx_renamed _ _ _ _ (fun _ => false) (renamed_src src dst hne)]
    simp
  · intro p h1 h2
    exact findIdx_renamed _ _ _ _ _ (renamed_other src dst p h1 h2)

/-- What a failed `os.Rename` did: nothing but consume its outcome. -/
theorem osRename_err {w w1 : World} {src dst : String} {e : Error}
    (h : osRename w src dst = (w1, some e)) : w1 = w.advance (.rename src dst) := by
  unfold osRename at h
  cases hf : w.nextFault with
  | some f =>
    simp [hf] at h
    exact h.1.symm
  | none =>
    cases hl : w.lookup src with
    | none =>
      simp [hf, hl] at h
      exact h.1.symm
    | some i => simp [hf, hl] at h

/-- What a successful `os.Create` did. -/
theorem osCreate_ok {w w1 : World} {p : String} {h : Nat} (hc : osCreate w p = (w1, .ok h)) :
    w.nextFault = none ∧ h = w.files.length ∧
      ((∃ i, w.lookup p = some i ∧
          w1 = { w.advance (.create p) with
                 store := Function.update w.store i [],
                 files := w.files ++ [⟨i, 0, false, false⟩] }) ∨
       (w.lookup p = none ∧
          w1 = { w.advance (.create p) with
                 dir := w.dir ++ [some p],
                 store := Function.update w.store w.freshIno [],
                 files := w.files ++ [⟨w.freshIno, 0, false, false⟩] })) := by
  unfold osCreate at hc
  cases hf : w.nextFault with
  | some f => simp [hf] at hc
  | none =>
    cases hl : w.lookup p with
    | none =>
      simp [hf, hl] at hc
      exact ⟨rfl, hc.2.symm, Or.inr ⟨rfl, hc.1.symm⟩⟩
    | some i =>
      simp [hf, hl] at hc
      exact ⟨rfl, hc.2.symm, Or.inl ⟨i, rfl, hc.1.symm⟩⟩

/-- The names after a file has been added under a name that was free. -/
theorem lookup_added (w v : World) (p : String) (hv : v.dir = w.dir ++ [some p])
    (hp : w.lookup p = none) :
    v.lookup p = some w.freshIno ∧ ∀ q, q ≠ p → v.lookup q = w.lookup q := by
  unfold World.lookup at *
  rw [hv]
  refine ⟨?_, ?_⟩
  · simp [List.findIdx?_append, hp, World.freshIno]
  · intro q hq
    have : (some p == some q) = false := by simpa using Ne.symm hq
    simp [List.findIdx?_append, this]

/-- The state an `os.Create` that worked leaves: a new open file object at
offset 0 on the inode now at the name, which is empty; contents of other
inodes, and the names of other paths, are as before. -/
theorem osCreate_state {w w1 : World} {p : String} {h : Nat} (hc : osCreate w p = (w1, .ok h)) :
    ∃ k, w1.lookup p = some k ∧ w1.store = Function.update w.store k [] ∧
      w1.files = w.files ++ [⟨k, 0, false, false⟩] ∧ h = w.files.length ∧
      (∀ q, q ≠ p → w1.lookup q = w.lookup q) ∧ w1.today = w.today ∧
      w1.script = w.script.tail ∧
      ((w.lookup p = some k ∧ w1.dir = w.dir) ∨
        (w.lookup p = none ∧ k = w.freshIno ∧ w1.dir = w.dir ++ [some p])) := by
  obtain ⟨-, hh, hcase⟩ := osCreate_ok hc
  rcases hcase with ⟨i, hi, rfl⟩ | ⟨hno, rfl⟩
  · exact ⟨i, hi, rfl, rfl, hh, fun _ _ => rfl, rfl, rfl, Or.inl ⟨hi, rfl⟩⟩
  · obtain ⟨a1, a2⟩ := lookup_added w
      { w.advance (.create p) with
        dir := w.dir ++ [some p],
        store := Function.update w.store w.freshIno [],
        files := w.files ++ [⟨w.freshIno, 0, false, false⟩] } p rfl hno
    exact ⟨w.freshIno, a1, rfl, rfl, hh, a2, rfl, rfl, Or.inr ⟨hno, rfl, rfl⟩⟩

/-- What a failed `os.Create` did: nothing but consume its outcome. -/
theorem osCreate_err {w w1 : World} {p : String} {e : Error}
    (hc : osCreate w p = (w1, .error e)) :
    w1 = w.advance (.create p) ∧ ∃ f, w.nextFault = some f ∧ e = .path "open" p f.errno := by
  unfold osCreate at hc
  cases hf : w.nextFault with
  | some f =>
    simp [hf] at hc
    exact ⟨hc.1.symm, f, rfl, hc.2.symm⟩
  | none =>
    cases hl : w.lookup p with
    | none => simp [hf, hl] at hc
    | some i => simp [hf, hl] at hc

/-- The effect of `Close` on the world, whatever it returns. -/
theorem fileClose_frame (w : World) (h : Nat) :
    (fileClose w h).1.dir = w.dir ∧ (fileClose w h).1.store = w.store ∧
      (fileClose w h).1.today = w.today ∧ (fileClose w h).1.trace = w.trace ++ [.close h] ∧
      (fileClose w h).1.files.length = w.files.length := by
  unfold fileClose
  cases hg : w.files[h]? with
  | none => simp
  | some o =>
    by_cases hcl : o.closed = true
    · simp [hcl]
    · cases hf : w.nextFault <;> simp [hcl, World.advance]

theorem lookup_of_dir {v w : World} (h : v.dir = w.dir) (p : String) :
    v.lookup p = w.lookup p := by
  unfold World.lookup
  rw [h]

/-- `os.Stat` changes nothing but the script and the trace. -/
theorem osStat_world (w : World) (p : String) : (osStat w p).1 = w.advance (.stat p) := by
  unfold osStat
  cases hf : w.nextFault with
  | some f => rfl
  | none => cases hl : w.lookup p <;> rfl

/-- `os.Stat` returns no error exactly when the environment lets it work and
the name is there. -/
theorem osStat_ok_iff (w : World) (p : String) :
    (osStat w p).2 = none ↔ w.nextFault = none ∧ ∃ i, w.lookup p = some i := by
  unfold osStat
  cases hf : w.nextFault with
  | some f => simp
  | none => cases hl : w.lookup p <;> simp

theorem archive_stat_ok {w : World} {l : LogFile} (h : (osStat w l.name).2 = none) :
    l.archive w = osRename (w.advance (.stat l.name)) l.name (archiveName w l) := by
  have hw := osStat_world w l.name
  have : osStat w l.name = (w.advance (.stat l.name), none) := Prod.ext hw h
  simp only [LogFile.archive, this]
  rfl

theorem archive_stat_err {w : World} {l : LogFile} {e : Error}
    (h : (osStat w l.name).2 = some e) : l.archive w = (w.advance (.stat l.name), none) := by
  have hw := osStat_world w l.name
  have : osStat w l.name = (w.advance (.stat l.name), some e) := Prod.ext hw h
  simp only [LogFile.archive, this]

/-- The world after a first step of `Rotate` that reports no error: either
the existence check worked and the file at the logical name now is at the
archival name, or the check failed and nothing was renamed. -/
theorem archive_ok {w wa : World} {l : LogFile} (h : l.archive w = (wa, none)) :
    wa.store = w.store ∧ wa.files = w.files ∧ wa.today = w.today ∧
      (((osStat w l.name).2 = none ∧ wa.lookup l.name = none ∧
          wa.lookup (archiveName w l) = w.lookup l.name ∧
          (∀ p, p ≠ l.name → p ≠ archiveName w l → wa.lookup p = w.lookup p) ∧
          wa.script = w.script.tail.tail ∧
          wa.trace = w.trace ++ [.stat l.name, .rename l.name (archiveName w l)]) ∨
       ((osStat w l.name).2 ≠ none ∧ wa = w.advance (.stat l.name))) := by
  cases hs : (osStat w l.name).2 with
  | some e =>
    rw [archive_stat_err hs] at h
    simp only [Prod.mk.injEq, and_true] at h
    subst h
    exact ⟨rfl, rfl, rfl, Or.inr ⟨by simp, rfl⟩⟩
  | none =>
    rw [archive_stat_ok hs] at h
    obtain ⟨-, -, rfl⟩ := osRename_ok h
    have hne : l.name ≠ archiveName w l := (archive_ne _ _).symm
    obtain ⟨a1, a2, a3⟩ := osRename_lookup (w := w.advance (.stat l.name)) hne
    refine ⟨rfl, rfl, rfl, Or.inl ⟨rfl, ?_, ?_, ?_, rfl, ?_⟩⟩
    · exact a2
    · exact a1
    · exact a3
    · simp [World.advance]

/-- How `Rotate` ends once the new file has been created. -/
theorem Rotate_created {w wa wc : World} {l : LogFile} {f : Nat}
    (ha : l.archive w = (wa, none)) (hc : osCreate wa l.name = (wc, .ok f)) :
    l.Rotate w =
      match l.file with
      | none => (wc.log (.install f), { l with file := some f }, none)
      | some o => ((fileClose (wc.log (.install f)) o).1, { l with file := some f },
          (fileClose (wc.log (.install f)) o).2) := by
  unfold LogFile.Rotate
  rw [ha]
  simp only [hc]
  cases hf : l.file with
  | none => rfl
  | some o =>
    simp only
    cases hcl : (fileClose (wc.log (.install f)) o) with
    | mk w4 e =>
      cases e <;> rfl

/-- A call of `Rotate` that returns no error went through every step. -/
theorem Rotate_ok_inv {w w1 : World} {l l1 : LogFile} (h : l.Rotate w = (w1, l1, none)) :
    ∃ wa wc f, l.archive w = (wa, none) ∧ osCreate wa l.name = (wc, .ok f) := by
  unfold LogFile.Rotate at h
  cases ha : l.archive w with
  | mk wa ea =>
    cases ea with
    | some e => simp [ha] at h
    | none =>
      cases hc : osCreate wa l.name with
      | mk wc rc =>
        cases rc with
        | error e => simp [ha, hc] at h
        | ok f => exact ⟨wa, wc, f, rfl, hc⟩

/-- The names and the file contents once the new file has been created. -/
theorem Rotate_created_fs {w wa wc : World} {l : LogFile} {f : Nat}
    (ha : l.archive w = (wa, none)) (hc : osCreate wa l.name = (wc, .ok f)) :
    (l.Rotate w).1.dir = wc.dir ∧
      (l.Rotate w).1.today = w.today ∧
      (l.Rotate w).2.1 = { l with file := some w.files.length } ∧
      ∃ k, wc.lookup l.name = some k ∧
        (l.Rotate w).1.store = Function.update w.store k [] ∧
        (∀ q, q ≠ l.name → wc.lookup q = wa.lookup q) ∧
        ((wa.lookup l.name = some k ∧ wc.dir = wa.dir) ∨
          (wa.lookup l.name = none ∧ k = wa.freshIno ∧ wc.dir = wa.dir ++ [some l.name])) := by
  obtain ⟨hst, hfi, hto, -⟩ := archive_ok ha
  obtain ⟨k, c1, c2, c3, c4, c5, c6, -, c8⟩ := osCreate_state hc
  rw [hfi] at c4
  subst c4
  rw [Rotate_created ha hc]
  cases hlf : l.file with
  | none =>
    refine ⟨rfl, ?_, rfl, k, c1, ?_, c5, c8⟩
    · simp [c6, hto]
    · simp [c2, hst]
  | some o =>
    obtain ⟨h1, h2, h3, -⟩ := fileClose_frame (wc.log (.install w.files.length)) o
    refine ⟨?_, ?_, rfl, k, c1, ?_, c5, c8⟩
    · simp [h1]
    · simp [h3, c6, hto]
    · simp [h2, c2, hst]

theorem triple_eta {α β γ : Type} (x : α × β × γ) (c : γ) (h : x.2.2 = c) :
    x = (x.1, x.2.1, c) := by
  subst h
  rfl

/-- The effect of a `Write` on an open file object. -/
theorem fileWrite_open {v : World} {hn : Nat} {o : OpenFile} (b : List Nat)
    (ho : v.files[hn]? = some o) (hcl : o.closed = false) :
    (fileWrite v (some hn) b).1.dir = v.dir ∧
    (fileWrite v (some hn) b).1.today = v.today ∧
    (fileWrite v (some hn) b).1.script = v.script.tail ∧
    (fileWrite v (some hn) b).1.trace = v.trace ++ [.write hn b] ∧
    (∃ o1, (fileWrite v (some hn) b).1.files[hn]? = some o1 ∧ o1.ino = o.ino ∧
      o1.closed = false ∧ o1.app = o.app) ∧
    (∀ h, h ≠ hn → (fileWrite v (some hn) b).1.files[h]? = v.files[h]?) ∧
    (∀ i, i ≠ o.ino → (fileWrite v (some hn) b).1.store i = v.store i) := by
  have hlt : hn < v.files.length := (List.getElem?_eq_some.mp ho).1
  unfold fileWrite
  simp only [ho, hcl]
  cases hf : v.nextFault with
  | none =>
    refine ⟨rfl, rfl, rfl, rfl, ?_, ?_, ?_⟩
    · simp [World.advance, List.getElem?_set_self hlt, hcl]
    · intro h hne
      simp [World.advance, List.getElem?_set_ne (Ne.symm hne)]
    · intro i hi
      simp [World.advance, Function.update, hi]
  | some flt =>
    refine ⟨rfl, rfl, rfl, rfl, ?_, ?_, ?_⟩
    · simp [World.advance, List.getElem?_set_self hlt, hcl]
    · intro h hne
      simp [World.advance, List.getElem?_set_ne (Ne.symm hne)]
    · intro i hi
      simp [World.advance, Function.update, hi]

theorem pwrite_end (data b : List Nat) : pwrite data data.length b = data ++ b := by
  simp [pwrite]

/-- A `Write` that the environment does not fail, on a file object positioned
at the end of its file, appends the whole payload. -/
theorem fileWrite_append {v : World} {hn : Nat} {o : OpenFile} (b : List Nat)
    (ho : v.files[hn]? = some o) (hcl : o.closed = false)
    (hoff : o.app = false → o.off = (v.store o.ino).length) (hf : v.nextFault = none) :
    (fileWrite v (some hn) b).2 = (b.length, none) ∧
    (fileWrite v (some hn) b).1.store o.ino = v.store o.ino ++ b ∧
    (fileWrite v (some hn) b).1.files[hn]? =
      some { o with off := (v.store o.ino ++ b).length } := by
  have hlt : hn < v.files.length := (List.getElem?_eq_some.mp ho).1
  unfold fileWrite
  simp only [ho, hcl, hf]
  have hpos : (if o.app = true then (v.store o.ino).length else o.off) = (v.store o.ino).length := by
    by_cases ha : o.app = true
    · simp [ha]
    · simp [ha, hoff (by simpa using ha)]
  refine ⟨rfl, ?_, ?_⟩
  · simp [World.advance, hpos, pwrite_end]
  · simp [World.advance, hpos, List.getElem?_set_self hlt]

/-- Writes through a sink whose file object is open all go to that object
and touch nothing but it and its inode. -/
theorem WriteAll_frame (l : LogFile) (hn k : Nat) (hl : l.file = some hn) :
    ∀ (bs : List (List Nat)) (v : World),
      (∃ o, v.files[hn]? = some o ∧ o.ino = k ∧ o.closed = false) →
      (l.WriteAll v bs).1.dir = v.dir ∧
      (l.WriteAll v bs).1.today = v.today ∧
      (l.WriteAll v bs).1.trace = v.trace ++ bs.map (fun b => Event.write hn b) ∧
      (∃ o, (l.WriteAll v bs).1.files[hn]? = some o ∧ o.ino = k ∧ o.closed = false) ∧
      (∀ h, h ≠ hn → (l.WriteAll v bs).1.files[h]? = v.files[h]?) ∧
      (∀ i, i ≠ k → (l.WriteAll v bs).1.store i = v.store i) := by
  intro bs
  induction bs with
  | nil =>
    intro v hv
    exact ⟨rfl, rfl, by simp [LogFile.WriteAll], hv, fun _ _ => rfl, fun _ _ => rfl⟩
  | cons b bs ih =>
    intro v ⟨o, ho, hio, hcl⟩
    obtain ⟨h1, h2, -, h3, ⟨o1, ho1, hio1, hcl1, -⟩, h5, h6⟩ := fileWrite_open b ho hcl
    have hstep : l.Write v b = fileWrite v (some hn) b := by simp [LogFile.Write, hl]
    obtain ⟨g1, g2, g3, g4, g5, g6⟩ := ih (fileWrite v (some hn) b).1 ⟨o1, ho1, hio1 ▸ hio, hcl1⟩
    simp only [LogFile.WriteAll, hstep]
    refine ⟨g1.trans h1, g2.trans h2, ?_, g4, ?_, ?_⟩
    · rw [g3, h3]
      simp
    · intro h hne
      rw [g5 h hne, h5 h hne]
    · intro i hi
      rw [g6 i hi, h6 i (hio ▸ hi)]

/-- Writes that the environment does not fail, through a sink whose file
object stands at the end of its file, append all payloads in order. -/
theorem WriteAll_append (l : LogFile) (hn k : Nat) (hl : l.file = some hn) :
    ∀ (bs : List (List Nat)) (v : World),
      (∀ x ∈ v.script, x = none) →
      (∃ o, v.files[hn]? = some o ∧ o.ino = k ∧ o.closed = false ∧
        (o.app = false → o.off = (v.store k).length)) →
      (l.WriteAll v bs).1.store k = v.store k ++ bs.flatten ∧
      (l.WriteAll v bs).2 = bs.map (fun b => (b.length, none)) := by
  intro bs
  induction bs with
  | nil =>
    intro v _ _
    simp [LogFile.WriteAll]
  | cons b bs ih =>
    intro v hs ⟨o, ho, hio, hcl, hoff⟩
    subst hio
    have hf : v.nextFault = none := by
      unfold World.nextFault
      cases hsc : v.script with
      | nil => rfl
      | cons x xs => exact hs x (by simp [hsc])
    obtain ⟨r1, r2, r3⟩ := fileWrite_append b ho hcl hoff hf
    obtain ⟨-, -, hscr, -, -, -, -⟩ := fileWrite_open b ho hcl
    have hstep : l.Write v b = fileWrite v (some hn) b := by simp [LogFile.Write, hl]
    have hs1 : ∀ x ∈ (fileWrite v (some hn) b).1.script, x = none := by
      intro x hx
      rw [hscr] at hx
      exact hs x (List.mem_of_mem_tail hx)
    obtain ⟨g1, g2⟩ := ih (fileWrite v (some hn) b).1 hs1
      ⟨_, r3, rfl, hcl, fun _ => by simp [r2]⟩
    simp only [LogFile.WriteAll, hstep]
    refine ⟨?_, ?_⟩
    · rw [g1, r2]
      simp
    · rw [g2, r1]
      simp

/-- `Close` touches no file object but its own. -/
theorem fileClose_other (w : World) (h j : Nat) (hj : j ≠ h) :
    (fileClose w h).1.files[j]? = w.files[j]? := by
  unfold fileClose
  cases hg : w.files[h]? with
  | none => simp
  | some o =>
    by_cases hcl : o.closed = true
    · simp [hcl]
    · cases hf : w.nextFault <;>
        simp [hcl, World.advance, List.getElem?_set_ne (Ne.symm hj)]

/-- The file objects once the new file has been created: the new object is
the last one, open at offset 0 on the inode at the logical name, and no object
other than the old one of the sink has changed. -/
theorem Rotate_created_files {w wa wc : World} {l : LogFile} {f : Nat}
    (ha : l.archive w = (wa, none)) (hc : osCreate wa l.name = (wc, .ok f))
    (hwf : ∀ h, l.file = some h → h < w.files.length) :
    f = w.files.length ∧ l.file ≠ some f ∧
    (∀ k, wc.lookup l.name = some k →
      (l.Rotate w).1.files[f]? = some ⟨k, 0, false, false⟩) ∧
    (∀ j, j < w.files.length → l.file ≠ some j → (l.Rotate w).1.files[j]? = w.files[j]?) := by
  obtain ⟨-, hfi, -, -⟩ := archive_ok ha
  obtain ⟨k, c1, -, c3, c4, -⟩ := osCreate_state hc
  rw [hfi] at c3 c4
  have hne : l.file ≠ some f := by
    intro hcon
    have := hwf f hcon
    omega
  subst c4
  rw [Rotate_created ha hc]
  cases hlf : l.file with
  | none =>
    refine ⟨rfl, by simp, ?_, ?_⟩
    · intro k2 hk2
      rw [c1] at hk2
      cases hk2
      simp [c3]
    · intro j hj _
      simp [c3, List.getElem?_append_left hj]
  | some o =>
    have hoj : w.files.length ≠ o := by
      intro hcon
      exact hne (by rw [hlf, hcon])
    refine ⟨rfl, by simpa using Ne.symm hoj, ?_, ?_⟩
    · intro k2 hk2
      rw [c1] at hk2
      cases hk2
      simp only
      rw [fileClose_other _ _ _ hoj]
      simp [c3]
    · intro j hj hjo
      simp only
      rw [fileClose_other _ _ _ (by simpa using Ne.symm hjo)]
      simp [c3, List.getElem?_append_left hj]

/-- The contents after a `Rotate` whose existence check worked and that
returned no error: the old content is at the archival name and the logical
name holds an empty resource on another inode. -/
theorem Rotate_ok_contents (w w1 : World) (l l1 : LogFile) (c : List Nat)
    (hc : w.read l.name = some c) (hstat : (osStat w l.name).2 = none)
    (hr : l.Rotate w = (w1, l1, none)) :
    w1.read (l.name ++ "." ++ w.today.format) = some c ∧
    w1.read l.name = some [] ∧
    (∃ k, w1.lookup l.name = some k ∧ w.lookup l.name ≠ some k) := by
  obtain ⟨wa, wc, f, ha, hcr⟩ := Rotate_ok_inv hr
  obtain ⟨hdir, -, -, k, hk, hstore, hother, hcase⟩ := Rotate_created_fs ha hcr
  rw [hr] at hdir hstore
  simp only at hdir hstore
  obtain ⟨-, -, -, harch⟩ := archive_ok ha
  rcases harch with ⟨-, hno, hA, -, -, -⟩ | ⟨hbad, -⟩
  swap
  · exact absurd hstat hbad
  cases hl : w.lookup l.name with
  | none => simp [World.read, hl] at hc
  | some i =>
    have hci : w.store i = c := by simpa [World.read, hl] using hc
    have hne : archiveName w l ≠ l.name := archive_ne _ _
    have hlookA : w1.lookup (archiveName w l) = some i := by
      rw [lookup_of_dir hdir, hother _ hne, hA, hl]
    have hlookL : w1.lookup l.name = some k := by rw [lookup_of_dir hdir, hk]
    have hik : i ≠ k := by
      intro hcon
      subst hcon
      exact hne (lookup_inj hlookA hlookL)
    refine ⟨?_, ?_, ⟨k, hlookL, ?_⟩⟩
    · show w1.read (archiveName w l) = some c
      simp [World.read, hlookA, hstore, Function.update, hik, hci]
    · simp [World.read, hlookL, hstore]
    · simpa using hik

/-- Writes issued after a `Rotate` that returned no error. -/
theorem Rotate_then_writes (w w1 : World) (l l1 : LogFile)
    (bs : List (List Nat))
    (hwf : ∀ h, l.file = some h → h < w.files.length)
    (hr : l.Rotate w = (w1, l1, none)) :
    ∃ hn k, l1.file = some hn ∧ hn = w.files.length ∧ l.file ≠ some hn ∧
      w1.files[hn]? = some ⟨k, 0, false, false⟩ ∧ w1.lookup l.name = some k ∧
      (l1.WriteAll w1 bs).1.trace = w1.trace ++ bs.map (fun b => Event.write hn b) ∧
      (l1.WriteAll w1 bs).1.lookup l.name = some k ∧
      (∀ h, l.file = some h → (l1.WriteAll w1 bs).1.files[h]? = w1.files[h]?) ∧
      (l1.WriteAll w1 bs).1.read (l.name ++ "." ++ w.today.format) =
        w1.read (l.name ++ "." ++ w.today.format) ∧
      (∀ p, p ≠ l.name → (l1.WriteAll w1 bs).1.read p = w1.read p) ∧
      ((∀ x ∈ w1.script, x = none) →
        (l1.WriteAll w1 bs).1.read l.name = some bs.flatten ∧
        (l1.WriteAll w1 bs).2 = bs.map (fun b => (b.length, none))) := by
  obtain ⟨wa, wc, f, ha, hcr⟩ := Rotate_ok_inv hr
  obtain ⟨hdir, -, hl1, k, hk, hstore, -, -⟩ := Rotate_created_fs ha hcr
  obtain ⟨hf, hne, hnew, -⟩ := Rotate_created_files ha hcr hwf
  have hnew := hnew k hk
  rw [hr] at hdir hstore hl1 hnew
  simp only at hdir hstore hl1 hnew
  subst hf
  have hfile : l1.file = some w.files.length := by rw [hl1]
  have hlookL : w1.lookup l.name = some k := by rw [lookup_of_dir hdir, hk]
  obtain ⟨g1, -, g3, -, g5, g6⟩ := WriteAll_frame l1 w.files.length k hfile bs w1
    ⟨_, hnew, rfl, rfl⟩
  have hother : ∀ p, p ≠ l.name → (l1.WriteAll w1 bs).1.read p = w1.read p := by
    intro p hp
    have hlk : (l1.WriteAll w1 bs).1.lookup p = w1.lookup p := lookup_of_dir g1 p
    simp only [World.read, hlk]
    cases hq : w1.lookup p with
    | none => rfl
    | some j =>
      have hjk : j ≠ k := by
        intro hcon
        subst hcon
        exact hp (lookup_inj hq hlookL)
      simp [g6 j hjk]
  refine ⟨w.files.length, k, hfile, rfl, hne, hnew, hlookL, g3, ?_, ?_, ?_, hother, ?_⟩
  · rw [lookup_of_dir g1, hlookL]
  · intro h hh
    apply g5
    intro hcon
    exact hne (hcon ▸ hh)
  · exact hother _ (archive_ne _ _)
  · intro hs
    obtain ⟨c1, c2⟩ := WriteAll_append l1 w.files.length k hfile bs w1 hs
      ⟨_, hnew, rfl, rfl, fun _ => by simp [hstore]⟩
    refine ⟨?_, c2⟩
    have hlk : (l1.WriteAll w1 bs).1.lookup l.name = some k := by
      rw [lookup_of_dir g1, hlookL]
    simp [World.read, hlk, c1, hstore]

theorem osRename_trace (w : World) (src dst : String) :
    (osRename w src dst).1.trace = w.trace ++ [.rename src dst] := by
  unfold osRename
  cases hf : w.nextFault with
  | some f => rfl
  | none =>
    cases hl : w.lookup src <;> rfl

theorem osCreate_trace (w : World) (p : String) :
    (osCreate w p).1.trace = w.trace ++ [.create p] := by
  unfold osCreate
  cases hf : w.nextFault with
  | some f => rfl
  | none =>
    cases hl : w.lookup p <;> rfl

/-- A failed rename leaves directory, contents and file objects alone. -/
theorem osRename_err_frame {w w1 : World} {src dst : String} {e : Error}
    (h : osRename w src dst = (w1, some e)) :
    w1.dir = w.dir ∧ w1.store = w.store ∧ w1.files = w.files ∧
      w1.trace = w.trace ++ [.rename src dst] := by
  rw [osRename_err h]
  exact ⟨rfl, rfl, rfl, rfl⟩

theorem osStat_trace (w : World) (p : String) :
    (osStat w p).1.trace = w.trace ++ [.stat p] := by
  rw [osStat_world]
  rfl

/-- The calls made by the first step of `Rotate`. -/
theorem archive_trace (w : World) (l : LogFile) :
    (l.archive w).1.trace = w.trace ++
      match (osStat w l.name).2 with
      | none => [.stat l.name, .rename l.name (archiveName w l)]
      | some _ => [.stat l.name] := by
  cases hs : (osStat w l.name).2 with
  | some e => simp [archive_stat_err hs]
  | none =>
    rw [archive_stat_ok hs, osRename_trace]
    simp

/-- How `Rotate` ends when its first step fails. -/
theorem Rotate_archive_err {w wa : World} {l : LogFile} {e : Error}
    (ha : l.archive w = (wa, some e)) : l.Rotate w = (wa, l, some e) := by
  unfold LogFile.Rotate
  rw [ha]

/-- How `Rotate` ends when the new file cannot be created. -/
theorem Rotate_create_err {w wa wc : World} {l : LogFile} {e : Error}
    (ha : l.archive w = (wa, none)) (hc : osCreate wa l.name = (wc, .error e)) :
    l.Rotate w = (wc, l, some e) := by
  unfold LogFile.Rotate
  rw [ha]
  simp only [hc]

theorem nextFault_of_allNone {w : World} (h : ∀ x ∈ w.script, x = none) : w.nextFault = none := by
  unfold World.nextFault
  cases hsc : w.script with
  | nil => rfl
  | cons x xs => exact h x (by simp [hsc])

theorem allNone_tail {s : List (Option Fault)} (h : ∀ x ∈ s, x = none) :
    ∀ x ∈ s.tail, x = none :=
  fun x hx => h x (List.mem_of_mem_tail hx)

/-- With an environment that fails no call and an open previous file (or
none), `Rotate` returns no error. -/
theorem Rotate_no_fault (w : World) (l : LogFile) (hs : ∀ x ∈ w.script, x = none)
    (hopen : ∀ h, l.file = some h → w.isOpen h = true) : (l.Rotate w).2.2 = none := by
  have key : ∃ wa, l.archive w = (wa, none) ∧ (∀ x ∈ wa.script, x = none) ∧
      wa.files = w.files := by
    cases hst : (osStat w l.name).2 with
    | some e => exact ⟨_, archive_stat_err hst, allNone_tail hs, rfl⟩
    | none =>
      obtain ⟨-, i, hi⟩ := (osStat_ok_iff w l.name).mp hst
      rw [archive_stat_ok hst]
      have hnf : (w.advance (.stat l.name)).nextFault = none :=
        nextFault_of_allNone (w := w.advance (.stat l.name)) (allNone_tail hs)
      have hren : osRename (w.advance (.stat l.name)) l.name (archiveName w l) =
          ({ (w.advance (.stat l.name)).advance (.rename l.name (archiveName w l)) with
             dir := w.dir.map (renamed l.name (archiveName w l)) }, none) := by
        unfold osRename
        simp only [hnf, advance_lookup, hi, advance_dir]
      exact ⟨_, hren, allNone_tail (allNone_tail hs), rfl⟩
  obtain ⟨wa, ha, hsa, hfa⟩ := key
  have hnf := nextFault_of_allNone hsa
  have hcr : ∃ wc, osCreate wa l.name = (wc, .ok wa.files.length) ∧
      (∀ x ∈ wc.script, x = none) ∧ ∃ x, wc.files = wa.files ++ [x] := by
    unfold osCreate
    simp only [hnf]
    cases hl : wa.lookup l.name with
    | none => exact ⟨_, rfl, allNone_tail hsa, _, rfl⟩
    | some i => exact ⟨_, rfl, allNone_tail hsa, _, rfl⟩
  obtain ⟨wc, hc, hsc, x, hfc⟩ := hcr
  rw [Rotate_created ha hc]
  cases hlf : l.file with
  | none => rfl
  | some h =>
    simp only
    have ho := hopen h hlf
    unfold World.isOpen at ho
    cases hg : w.files[h]? with
    | none => simp [hg] at ho
    | some o =>
      simp [hg] at ho
      have hlt : h < w.files.length := (List.getElem?_eq_some.mp hg).1
      have hg2 : wc.files[h]? = some o := by
        rw [hfc, hfa, List.getElem?_append_left hlt]
        exact hg
      have hnf2 : (wc.log (.install wa.files.length)).nextFault = none := by
        rw [log_nextFault]
        exact nextFault_of_allNone hsc
      unfold fileClose
      simp [hg2, ho, hnf2]

/-- The calls made by `Rotate` once the new file has been created. -/
theorem Rotate_created_trace {w wa wc : World} {l : LogFile} {f : Nat}
    (ha : l.archive w = (wa, none)) (hc : osCreate wa l.name = (wc, .ok f)) :
    (l.Rotate w).1.trace = wa.trace ++ [.create l.name] ++
      match l.file with
      | none => [.install f]
      | some h => [.install f, .close h] := by
  have htr := osCreate_trace wa l.name
  rw [hc] at htr
  simp only at htr
  rw [Rotate_created ha hc]
  cases hlf : l.file with
  | none => simp [htr]
  | some h =>
    obtain ⟨-, -, -, h4, -⟩ := fileClose_frame (wc.log (.install f)) h
    simp only [h4, log_trace, htr]
    simp

/-- The calls that `Rotate` adds to the trace: a close, if there is one, is
the last call, is made on the file the sink had, and comes right after the
installation of the new file. -/
theorem Rotate_close_last (w : World) (l : LogFile) (T : List Event)
    (hT : (l.Rotate w).1.trace = w.trace ++ T) (x : Nat) (hx : Event.close x ∈ T) :
    ∃ pre f, T = pre ++ [.install f, .close x] ∧ (∀ y, Event.close y ∉ pre) ∧
      (∀ g, Event.install g ∉ pre) ∧ l.file = some x ∧ (l.Rotate w).2.1.file = some f := by
  have htr := archive_trace w l
  cases ha : l.archive w with
  | mk wa ea =>
    rw [ha] at htr
    simp only at htr
    cases ea with
    | some e =>
      rw [Rotate_archive_err ha, htr] at hT
      have hTe := List.append_cancel_left hT
      subst hTe
      cases hl : (osStat w l.name).2 <;> simp [hl] at hx
    | none =>
      cases hc : osCreate wa l.name with
      | mk wc rc =>
        cases rc with
        | error e =>
          have h1 := osCreate_trace wa l.name
          rw [hc] at h1
          simp only at h1
          rw [Rotate_create_err ha hc] at hT
          simp only [h1, htr, List.append_assoc] at hT
          have hTe := List.append_cancel_left hT
          subst hTe
          cases hl : (osStat w l.name).2 <;> simp [hl] at hx
        | ok f =>
          have h1 := Rotate_created_trace ha hc
          have h2 := Rotate_created ha hc
          rw [h1, htr] at hT
          simp only [List.append_assoc] at hT
          have hTe := List.append_cancel_left hT
          subst hTe
          cases hlf : l.file with
          | none => cases hl : (osStat w l.name).2 <;> simp [hl, hlf] at hx
          | some h =>
            have hxh : x = h := by
              cases hl : (osStat w l.name).2 <;> simpa [hl, hlf] using hx
            subst hxh
            refine ⟨(match (osStat w l.name).2 with
              | none => [.stat l.name, .rename l.name (archiveName w l)]
              | some _ => [.stat l.name]) ++ [.create l.name], f, ?_, ?_, ?_, rfl, ?_⟩
            · simp
            · intro y
              cases hl : (osStat w l.name).2 <;> simp
            · intro g
              cases hl : (osStat w l.name).2 <;> simp
            · rw [h2, hlf]

theorem fileWrite_trace (v : World) (h : Nat) (b : List Nat) :
    (fileWrite v (some h) b).1.trace = v.trace ++ [.write h b] := by
  unfold fileWrite
  simp only
  cases hg : v.files[h]? with
  | none => simp
  | some o =>
    by_cases hcl : o.closed = true
    · simp [hcl]
    · cases hf : v.nextFault <;> simp [hcl, World.advance]

/-- Every `Write` through a sink is a `Write` on the file of the sink. -/
theorem WriteAll_eq (l : LogFile) :
    ∀ (bs : List (List Nat)) (v : World), l.WriteAll v bs = fileWriteAll v l.file bs := by
  intro bs
  induction bs with
  | nil => intro v; rfl
  | cons b bs ih =>
    intro v
    simp only [LogFile.WriteAll, fileWriteAll, LogFile.Write, ih]

theorem WriteAll_trace (l : LogFile) (h : Nat) (hl : l.file = some h) :
    ∀ (bs : List (List Nat)) (v : World),
      (l.WriteAll v bs).1.trace = v.trace ++ bs.map (fun b => Event.write h b) := by
  intro bs
  induction bs with
  | nil => intro v; simp [LogFile.WriteAll]
  | cons b bs ih =>
    intro v
    simp only [LogFile.WriteAll, LogFile.Write, hl, ih, fileWrite_trace]
    simp

/-- The sink and the world after a `Rotate` that returned no error and any
writes: the date has not moved and the file of the sink is open. -/
theorem Rotate_then_writes_state (w w1 : World) (l l1 : LogFile) (bs : List (List Nat))
    (hwf : ∀ h, l.file = some h → h < w.files.length)
    (hr : l.Rotate w = (w1, l1, none)) :
    (l1.WriteAll w1 bs).1.today = w.today ∧ l1.name = l.name ∧
      ∃ hn, l1.file = some hn ∧ (l1.WriteAll w1 bs).1.isOpen hn = true := by
  obtain ⟨wa, wc, f, ha, hcr⟩ := Rotate_ok_inv hr
  obtain ⟨-, htoday, hl1, k, hk, -, -, -⟩ := Rotate_created_fs ha hcr
  obtain ⟨hf, -, hnew, -⟩ := Rotate_created_files ha hcr hwf
  have hnew := hnew k hk
  rw [hr] at htoday hl1 hnew
  simp only at htoday hl1 hnew
  subst hf
  have hfile : l1.file = some w.files.length := by rw [hl1]
  obtain ⟨-, g2, -, ⟨o, ho, -, hcl⟩, -, -⟩ :=
    WriteAll_frame l1 w.files.length k hfile bs w1 ⟨_, hnew, rfl, rfl⟩
  refine ⟨g2.trans htoday, by rw [hl1], w.files.length, hfile, ?_⟩
  simp [World.isOpen, ho, hcl]

/-- Failures of the rename, the create, the close of the old file and the
write are returned to the caller, and nothing is done after the failing call:
the world returned is the world that call left. -/
theorem Rotate_failures_returned (w : World) (l : LogFile) :
    (∀ e, (osStat w l.name).2 = none →
      (osRename (osStat w l.name).1 l.name (archiveName w l)).2 = some e →
        (l.Rotate w).2.2 = some e ∧
        (l.Rotate w).1 = (osRename (osStat w l.name).1 l.name (archiveName w l)).1) ∧
    (∀ wa e, l.archive w = (wa, none) → (osCreate wa l.name).2 = .error e →
        (l.Rotate w).2.2 = some e ∧ (l.Rotate w).1 = (osCreate wa l.name).1) ∧
    (∀ wa wc f h e, l.archive w = (wa, none) → osCreate wa l.name = (wc, .ok f) →
      l.file = some h → (fileClose (wc.log (.install f)) h).2 = some e →
        (l.Rotate w).2.2 = some e ∧ (l.Rotate w).1 = (fileClose (wc.log (.install f)) h).1) ∧
    (∀ b, l.Write w b = fileWrite w l.file b) := by
  refine ⟨?_, ?_, ?_, fun _ => rfl⟩
  · intro e hstat hren
    rw [osStat_world] at hren ⊢
    have ha : l.archive w =
        ((osRename (w.advance (.stat l.name)) l.name (archiveName w l)).1, some e) := by
      rw [archive_stat_ok hstat]
      exact Prod.ext rfl hren
    rw [Rotate_archive_err ha]
    exact ⟨rfl, rfl⟩
  · intro wa e ha hc
    have hc2 : osCreate wa l.name = ((osCreate wa l.name).1, .error e) := Prod.ext rfl hc
    rw [Rotate_create_err ha hc2]
    exact ⟨rfl, rfl⟩
  · intro wa wc f h e ha hc hl hcl
    rw [Rotate_created ha hc, hl]
    exact ⟨hcl, rfl⟩

/-- A failed existence check is not returned: the first step of `Rotate`
reports success without a rename, and `Rotate` goes on to the create. -/
theorem Rotate_failed_stat (w : World) (l : LogFile) (e : Error)
    (hs : (osStat w l.name).2 = some e) :
    l.archive w = ((osStat w l.name).1, none) ∧
    ∃ rest, (l.Rotate w).1.trace = w.trace ++ .stat l.name :: .create l.name :: rest := by
  have ha := archive_stat_err hs
  refine ⟨by rw [ha, osStat_world], ?_⟩
  cases hc : osCreate (w.advance (.stat l.name)) l.name with
  | mk wc rc =>
    have htr := osCreate_trace (w.advance (.stat l.name)) l.name
    rw [hc] at htr
    simp only [advance_trace] at htr
    cases rc with
    | error e2 =>
      rw [Rotate_create_err ha hc, htr]
      exact ⟨[], by simp⟩
    | ok f =>
      rw [Rotate_created_trace ha hc, advance_trace]
      exact ⟨match l.file with
        | none => [.install f]
        | some h => [.install f, .close h], by simp⟩

/-- Two rotations on the same day: after a `Rotate` that returned no error
and any writes, a second `Rotate` whose existence check works and that returns
no error leaves, at the same archival name, the content the logical name held
just before it, and an empty resource at the logical name; with an environment
that fails no call the second `Rotate` returns no error, whether or not the
archival name is taken. -/
theorem second_rotation_replaces_archive (w w1 : World) (l l1 : LogFile)
    (bs : List (List Nat))
    (hwf : ∀ h, l.file = some h → h < w.files.length)
    (hr1 : l.Rotate w = (w1, l1, none)) :
    (l1.WriteAll w1 bs).1.today = w.today ∧
    (∃ c, (l1.WriteAll w1 bs).1.read l.name = some c ∧
      ∀ w3 l3, (osStat (l1.WriteAll w1 bs).1 l.name).2 = none →
        l1.Rotate (l1.WriteAll w1 bs).1 = (w3, l3, none) →
        w3.read (l.name ++ "." ++ w.today.format) = some c ∧ w3.read l.name = some []) ∧
    ((∀ x ∈ (l1.WriteAll w1 bs).1.script, x = none) →
      (l1.Rotate (l1.WriteAll w1 bs).1).2.2 = none) := by
  obtain ⟨htoday, hname, hn, hfile, hopen⟩ := Rotate_then_writes_state w w1 l l1 bs hwf hr1
  obtain ⟨hn2, k, hfile2, -, -, -, -, -, hlk, -, -, -, -⟩ :=
    Rotate_then_writes w w1 l l1 bs hwf hr1
  refine ⟨htoday, ?_, ?_⟩
  · refine ⟨(l1.WriteAll w1 bs).1.store k, by simp [World.read, hlk], ?_⟩
    intro w3 l3 hstat hr2
    have hc : (l1.WriteAll w1 bs).1.read l1.name = some ((l1.WriteAll w1 bs).1.store k) := by
      rw [hname]
      simp [World.read, hlk]
    have h := Rotate_ok_contents _ w3 l1 l3 _ hc (hname ▸ hstat) hr2
    rw [hname, htoday] at h
    exact ⟨h.1, h.2.1⟩
  · intro hs
    apply Rotate_no_fault _ _ hs
    intro h hh
    rw [hfile] at hh
    cases hh
    exact hopen

/-! ## Concurrent runs -/

theorem isOpen_of_files {w v : World} (x : Nat) (h : v.files[x]? = w.files[x]?) :
    v.isOpen x = w.isOpen x := by
  unfold World.isOpen
  rw [h]

theorem isOpen_lt {w : World} {x : Nat} (h : w.isOpen x = true) : x < w.files.length := by
  unfold World.isOpen at h
  cases hg : w.files[x]? with
  | none => simp [hg] at h
  | some o => exact (List.getElem?_eq_some.mp hg).1

theorem osStat_files (w : World) (p : String) : (osStat w p).1.files = w.files := by
  rw [osStat_world]
  rfl

theorem osRename_files (w : World) (src dst : String) : (osRename w src dst).1.files = w.files := by
  unfold osRename
  cases hf : w.nextFault with
  | some f => rfl
  | none => cases hl : w.lookup src <;> rfl

/-- `os.Create` leaves the existing file objects alone. -/
theorem osCreate_isOpen (w : World) (p : String) (x : Nat) (h : w.isOpen x = true) :
    (osCreate w p).1.isOpen x = true := by
  have hlt := isOpen_lt h
  rw [← h]
  apply isOpen_of_files
  unfold osCreate
  cases hf : w.nextFault with
  | some f => rfl
  | none =>
    cases hl : w.lookup p <;> simp [World.advance, List.getElem?_append_left hlt]

/-- The file object returned by `os.Create` is new and open. -/
theorem osCreate_new {w w1 : World} {p : String} {f : Nat} (hc : osCreate w p = (w1, .ok f)) :
    f = w.files.length ∧ w1.isOpen f = true := by
  obtain ⟨-, hf, hcase⟩ := osCreate_ok hc
  refine ⟨hf, ?_⟩
  subst hf
  rcases hcase with ⟨i, -, rfl⟩ | ⟨-, rfl⟩ <;> simp [World.isOpen, World.advance]

/-- `Write` closes nothing and opens nothing. -/
theorem fileWrite_isOpen (w : World) (f : Option Nat) (b : List Nat) (x : Nat) :
    (fileWrite w f b).1.isOpen x = w.isOpen x := by
  unfold fileWrite
  cases f with
  | none => rfl
  | some h =>
    simp only
    cases hg : w.files[h]? with
    | none => rfl
    | some o =>
      by_cases hcl : o.closed = true
      · simp [hcl]
      · have hlt : h < w.files.length := (List.getElem?_eq_some.mp hg).1
        by_cases hx : h = x
        · subst hx
          cases hf : w.nextFault <;>
            simp [hcl, World.isOpen, World.advance, List.getElem?_set_self hlt, hg]
        · cases hf : w.nextFault <;>
            simp [hcl, World.isOpen, World.advance, List.getElem?_set_ne hx]

/-- `Close` closes no file object but its own. -/
theorem fileClose_isOpen (w : World) (h x : Nat) (hx : x ≠ h) :
    (fileClose w h).1.isOpen x = w.isOpen x :=
  isOpen_of_files x (fileClose_other w h x hx)

theorem set_get_cases {α : Type} (xs : List α) (i j : Nat) (a q : α)
    (h : (xs.set i a)[j]? = some q) : (j = i ∧ q = a) ∨ (j ≠ i ∧ xs[j]? = some q) := by
  by_cases hij : i = j
  · subst hij
    left
    rw [List.getElem?_set] at h
    simp only [if_true] at h
    by_cases hlt : i < xs.length
    · simp [hlt] at h
      exact ⟨rfl, h.symm⟩
    · simp [hlt] at h
  · right
    rw [List.getElem?_set_ne hij] at h
    exact ⟨fun hc => hij hc.symm, h⟩

/-- The invariant holds at the start of a run over a sink with an open file. -/
theorem Inv_init (w : World) (l : LogFile) (n h0 : Nat) (hl : l.file = some h0)
    (ho : w.isOpen h0 = true) : (Conc.init w l n).Inv h0 := by
  refine ⟨?_, ?_, ⟨h0, hl, ho, Or.inl rfl⟩, ⟨hl, rfl⟩⟩
  · intro i pc hpc hh
    have : pc = .idle := by
      simp only [Conc.init, List.getElem?_replicate] at hpc
      by_cases hi : i < n
      · simp [hi] at hpc
        exact hpc.symm
      · simp [hi] at hpc
    subst this
    simp [WriterPc.holdsLock] at hh
  · intro i b f hpc
    simp only [Conc.init, List.getElem?_replicate] at hpc
    by_cases hi : i < n
    · simp [hi] at hpc
    · simp [hi] at hpc

/-- A statement of a writer keeps the invariant. -/
theorem Inv_stepWriter (h0 : Nat) (s : Conc) (i : Nat) (b : List Nat) (hinv : s.Inv h0) :
    (s.stepWriter i b).Inv h0 := by
  obtain ⟨h1, h2, h3, h4⟩ := hinv
  unfold Conc.stepWriter
  cases hw : s.writers[i]? with
  | none => exact ⟨h1, h2, h3, h4⟩
  | some pc =>
    cases pc with
    | idle =>
      refine ⟨?_, ?_, h3, h4⟩
      · intro j q hq hh
        rcases set_get_cases _ _ _ _ _ hq with ⟨-, rfl⟩ | ⟨-, hq2⟩
        · simp [WriterPc.holdsLock] at hh
        · exact h1 j q hq2 hh
      · intro j c f hq
        rcases set_get_cases _ _ _ _ _ hq with ⟨-, hq2⟩ | ⟨-, hq2⟩
        · cases hq2
        · exact h2 j c f hq2
    | lock c =>
      cases hmu : s.mu with
      | some o => exact ⟨h1, h2, h3, h4⟩
      | none =>
        refine ⟨?_, ?_, h3, ?_⟩
        · intro j q hq hh
          rcases set_get_cases _ _ _ _ _ hq with ⟨rfl, -⟩ | ⟨-, hq2⟩
          · rfl
          · have := h1 j q hq2 hh
            rw [hmu] at this
            cases this
        · intro j c2 f hq
          rcases set_get_cases _ _ _ _ _ hq with ⟨-, hq2⟩ | ⟨-, hq2⟩
          · cases hq2
          · exact h2 j c2 f hq2
        · cases hr : s.rot with
          | stat => simpa [hr] using h4
          | rename => simpa [hr] using h4
          | create => simpa [hr] using h4
          | lock f => simpa [hr] using h4
          | swap f =>
            simp only [hr] at h4
            rw [hmu] at h4
            exact absurd h4.2.2.2.2 (by simp)
          | unlock old =>
            simp only [hr] at h4
            rw [hmu] at h4
            exact absurd h4.2.2 (by simp)
          | close old => simpa [hr] using h4
          | done e => simp [hr]
    | load c =>
      refine ⟨?_, ?_, h3, h4⟩
      · intro j q hq hh
        rcases set_get_cases _ _ _ _ _ hq with ⟨rfl, -⟩ | ⟨-, hq2⟩
        · exact h1 j _ hw rfl
        · exact h1 j q hq2 hh
      · intro j c2 f hq
        rcases set_get_cases _ _ _ _ _ hq with ⟨-, hq2⟩ | ⟨-, hq2⟩
        · cases hq2
          rfl
        · exact h2 j c2 f hq2
    | call c f =>
      refine ⟨?_, ?_, ?_, ?_⟩
      · intro j q hq hh
        rcases set_get_cases _ _ _ _ _ hq with ⟨rfl, -⟩ | ⟨-, hq2⟩
        · exact h1 j _ hw rfl
        · exact h1 j q hq2 hh
      · intro j c2 f2 hq
        rcases set_get_cases _ _ _ _ _ hq with ⟨-, hq2⟩ | ⟨-, hq2⟩
        · cases hq2
        · exact h2 j c2 f2 hq2
      · obtain ⟨x, hx1, hx2, hx3⟩ := h3
        exact ⟨x, hx1, by simp only [fileWrite_isOpen]; exact hx2, hx3⟩
      · cases hr : s.rot with
        | stat => simpa [hr] using h4
        | rename => simpa [hr] using h4
        | create => simpa [hr] using h4
        | lock g => simpa [hr, fileWrite_isOpen] using h4
        | swap g => simpa [hr, fileWrite_isOpen] using h4
        | unlock old => simpa [hr] using h4
        | close old => simpa [hr] using h4
        | done e => simp [hr]
    | unlock n e =>
      have hmu : s.mu = some (.writer i) := h1 i _ hw rfl
      refine ⟨?_, ?_, h3, ?_⟩
      · intro j q hq hh
        rcases set_get_cases _ _ _ _ _ hq with ⟨-, rfl⟩ | ⟨hji, hq2⟩
        · simp [WriterPc.holdsLock] at hh
        · have := h1 j q hq2 hh
          rw [hmu] at this
          cases this
          exact absurd rfl hji
      · intro j c2 f2 hq
        rcases set_get_cases _ _ _ _ _ hq with ⟨-, hq2⟩ | ⟨-, hq2⟩
        · cases hq2
        · exact h2 j c2 f2 hq2
      · cases hr : s.rot with
        | stat => simpa [hr] using h4
        | rename => simpa [hr] using h4
        | create => simpa [hr] using h4
        | lock f => simpa [hr] using h4
        | swap f =>
          simp only [hr] at h4
          rw [hmu] at h4
          exact absurd h4.2.2.2.2 (by simp)
        | unlock old =>
          simp only [hr] at h4
          rw [hmu] at h4
          exact absurd h4.2.2 (by simp)
        | close old => simpa [hr] using h4
        | done e => simp [hr]

/-- A statement of `Rotate` keeps the invariant. -/
theorem Inv_stepRotate (h0 : Nat) (s : Conc) (hinv : s.Inv h0) : s.stepRotate.Inv h0 := by
  obtain ⟨h1, h2, h3, h4⟩ := hinv
  obtain ⟨x, hx1, hx2, hx3⟩ := h3
  unfold Conc.stepRotate
  cases hr : s.rot with
  | stat =>
    simp only [hr] at h4
    have hf := osStat_files s.world s.name
    have ho : (osStat s.world s.name).1.isOpen x = true := by
      rw [isOpen_of_files (w := s.world) x (by rw [hf]), hx2]
    cases hst : osStat s.world s.name with
    | mk w1 e =>
      rw [hst] at ho
      cases e with
      | none => exact ⟨h1, h2, ⟨x, hx1, ho, hx3⟩, h4⟩
      | some e => exact ⟨h1, h2, ⟨x, hx1, ho, hx3⟩, h4⟩
  | rename =>
    simp only [hr] at h4
    have hf := osRename_files s.world s.name (archiveName s.world ⟨s.name, s.file⟩)
    have ho : (osRename s.world s.name (archiveName s.world ⟨s.name, s.file⟩)).1.isOpen x
        = true := by
      rw [isOpen_of_files (w := s.world) x (by rw [hf]), hx2]
    cases hst : osRename s.world s.name (archiveName s.world ⟨s.name, s.file⟩) with
    | mk w1 e =>
      rw [hst] at ho
      cases e with
      | none => exact ⟨h1, h2, ⟨x, hx1, ho, hx3⟩, h4⟩
      | some e => exact ⟨h1, h2, ⟨x, hx1, ho, hx3⟩, trivial⟩
  | create =>
    simp only [hr] at h4
    have ho := osCreate_isOpen s.world s.name x hx2
    cases hst : osCreate s.world s.name with
    | mk w1 r =>
      rw [hst] at ho
      cases r with
      | error e => exact ⟨h1, h2, ⟨x, hx1, ho, hx3⟩, trivial⟩
      | ok f =>
        obtain ⟨hf, hof⟩ := osCreate_new hst
        have hxh : x = h0 := by
          rw [h4.1] at hx1
          cases hx1
          rfl
        have hne : f ≠ h0 := by
          have := isOpen_lt hx2
          omega
        exact ⟨h1, h2, ⟨x, hx1, ho, Or.inl hxh⟩, ⟨h4.1, rfl, hne, hof⟩⟩
  | lock f =>
    simp only [hr] at h4
    cases hmu : s.mu with
    | some o => exact ⟨h1, h2, ⟨x, hx1, hx2, hx3⟩, by simp only [hr]; exact h4⟩
    | none =>
      refine ⟨?_, h2, ⟨x, hx1, hx2, hx3⟩, ⟨h4.1, h4.2.1, h4.2.2.1, h4.2.2.2, rfl⟩⟩
      intro j q hq hh
      have := h1 j q hq hh
      rw [hmu] at this
      cases this
  | swap f =>
    simp only [hr] at h4
    obtain ⟨g1, g2, g3, g4, g5⟩ := h4
    refine ⟨h1, ?_, ⟨f, rfl, g4, Or.inr g2⟩, ⟨g1, ?_, g5⟩⟩
    · intro j c f2 hq
      have := h1 j _ hq rfl
      rw [g5] at this
      cases this
    · intro hcon
      cases hcon
      exact g3 rfl
  | unlock old =>
    simp only [hr] at h4
    obtain ⟨g1, g2, g3⟩ := h4
    refine ⟨?_, h2, ⟨x, hx1, hx2, hx3⟩, ⟨g1, g2⟩⟩
    intro j q hq hh
    have := h1 j q hq hh
    rw [g3] at this
    cases this
  | close old =>
    simp only [hr] at h4
    obtain ⟨g1, g2⟩ := h4
    subst g1
    have hxne : x ≠ h0 := by
      intro hcon
      subst hcon
      exact g2 hx1
    refine ⟨h1, h2, ⟨x, hx1, ?_, hx3⟩, trivial⟩
    show (fileClose s.world h0).1.isOpen x = true
    rw [fileClose_isOpen _ _ _ hxne]
    exact hx2
  | done e => exact ⟨h1, h2, ⟨x, hx1, hx2, hx3⟩, by simp only [hr]⟩

/-- Every schedule keeps the invariant. -/
theorem Inv_run (h0 : Nat) (sched : List Action) :
    ∀ s : Conc, s.Inv h0 → (s.run sched).Inv h0 := by
  induction sched with
  | nil => intro s hs; exact hs
  | cons a sched ih =>
    intro s hs
    unfold Conc.run
    rw [List.foldl_cons]
    apply ih
    cases a with
    | writer i b => exact Inv_stepWriter h0 s i b hs
    | rotator => exact Inv_stepRotate h0 s hs

/-- Run alone, the statements of the rotating goroutine are the method
`Rotate`: after seven of them it has returned, with the world, the file of
the sink and the error that `Rotate` gives. -/
theorem run_rotator_alone (w : World) (l : LogFile) (n : Nat) :
    ((Conc.init w l n).run (List.replicate 7 .rotator)).world = (l.Rotate w).1 ∧
    ((Conc.init w l n).run (List.replicate 7 .rotator)).file = (l.Rotate w).2.1.file ∧
    ((Conc.init w l n).run (List.replicate 7 .rotator)).rot = .done (l.Rotate w).2.2 ∧
    ((Conc.init w l n).run (List.replicate 7 .rotator)).mu = none := by
  simp only [Conc.run, List.replicate, List.foldl, Conc.step]
  cases hs : (osStat w l.name).2 with
  | some e0 =>
    have ha := archive_stat_err hs
    have hst : osStat w l.name = (w.advance (.stat l.name), some e0) :=
      Prod.ext (osStat_world w l.name) hs
    cases hc : osCreate (w.advance (.stat l.name)) l.name with
    | mk wc rc =>
      cases rc with
      | error e =>
        rw [Rotate_create_err ha hc]
        simp [Conc.stepRotate, Conc.init, hst, hc]
      | ok f =>
        rw [Rotate_created ha hc]
        cases hlf : l.file with
        | none => simp [Conc.stepRotate, Conc.init, hst, hc, hlf]
        | some h =>
          cases hcl : fileClose (wc.log (.install f)) h with
          | mk w4 e4 => simp [Conc.stepRotate, Conc.init, hst, hc, hlf, hcl]
  | none =>
    have hst : osStat w l.name = (w.advance (.stat l.name), none) :=
      Prod.ext (osStat_world w l.name) hs
    cases hr : osRename (w.advance (.stat l.name)) l.name (archiveName w l) with
    | mk wa ea =>
      have ha : l.archive w = (wa, ea) := by rw [archive_stat_ok hs, hr]
      have hr2 : osRename (w.advance (.stat l.name)) l.name
          (archiveName (w.advance (.stat l.name)) ⟨l.name, l.file⟩) = (wa, ea) := hr
      cases ea with
      | some e =>
        rw [Rotate_archive_err ha]
        simp [Conc.stepRotate, Conc.init, hst, hr2]
      | none =>
        cases hc : osCreate wa l.name with
        | mk wc rc =>
          cases rc with
          | error e =>
            rw [Rotate_create_err ha hc]
            simp [Conc.stepRotate, Conc.init, hst, hr2, hc]
          | ok f =>
            rw [Rotate_created ha hc]
            cases hlf : l.file with
            | none =>
              rw [hlf] at hr2
              simp [Conc.stepRotate, Conc.init, hst, hr2, hc, hlf]
            | some h =>
              rw [hlf] at hr2
              cases hcl : fileClose (wc.log (.install f)) h with
              | mk w4 e4 => simp [Conc.stepRotate, Conc.init, hst, hr2, hc, hlf, hcl]

/-- Run alone, the statements of a writer are the method `Write`: after four
of them the writer stands at `Unlock` with the results of `Write`, in the
world that `Write` leaves. -/
theorem run_writer_alone (w : World) (l : LogFile) (n i : Nat) (b : List Nat) (hi : i < n) :
    ((Conc.init w l n).run (List.replicate 4 (.writer i b))).world = (l.Write w b).1 ∧
    ((Conc.init w l n).run (List.replicate 4 (.writer i b))).writers[i]? =
      some (.unlock (l.Write w b).2.1 (l.Write w b).2.2) := by
  have h0 : (List.replicate n WriterPc.idle)[i]? = some .idle := by
    simp [List.getElem?_replicate, hi]
  have hlen : i < (List.replicate n WriterPc.idle).length := by simpa using hi
  simp only [Conc.run, List.replicate, List.foldl, Conc.step]
  simp [Conc.stepWriter, Conc.init, h0, hi, LogFile.Write]

/-! ## The claims -/

/-- C1 where the code departs from it: `app.log` holds `hello`, the existence
check fails with `EIO` and every later call works. `Rotate` takes the failed
check for an absent file, makes no rename, truncates `app.log` through
`os.Create` and returns no error; no archive exists afterwards and `hello` is
lost. When the check works, `Rotate_ok_contents` gives what C1 says. -/
theorem rotate_after_failed_stat_makes_no_archive :
    wStatFails.read "app.log" = some (bytes "hello") ∧
    (osStat wStatFails "app.log").2 = some (.path "stat" "app.log" 5) ∧
    (lHello.Rotate wStatFails).2.2 = none ∧
    (lHello.Rotate wStatFails).1.trace =
      [.stat "app.log", .create "app.log", .install 1, .close 0] ∧
    (lHello.Rotate wStatFails).1.read "app.log.2024-03-15" = none ∧
    (lHello.Rotate wStatFails).1.read "app.log" = some [] := by
  decide

/-- C2: after a `Rotate` that returned no error, every `Write` of any later
sequence of writes is delivered to the file object created by that `Rotate`,
which is open on the resource at the logical name; that object is not the
previously active one, whose state the writes leave alone; and the writes
change no path but the logical name, so the archive `l.name ++ "." ++ date`
is as `Rotate` left it. When the environment fails none of the writes, the
resource at the logical name holds exactly the payloads in order. -/
theorem writes_after_rotate_go_to_new_file (w w1 : World) (l l1 : LogFile)
    (bs : List (List Nat))
    (hwf : ∀ h, l.file = some h → h < w.files.length)
    (hr : l.Rotate w = (w1, l1, none)) :
    ∃ hn k, l1.file = some hn ∧ hn = w.files.length ∧ l.file ≠ some hn ∧
      w1.files[hn]? = some ⟨k, 0, false, false⟩ ∧ w1.lookup l.name = some k ∧
      (l1.WriteAll w1 bs).1.trace = w1.trace ++ bs.map (fun b => Event.write hn b) ∧
      (l1.WriteAll w1 bs).1.lookup l.name = some k ∧
      (∀ h, l.file = some h → (l1.WriteAll w1 bs).1.files[h]? = w1.files[h]?) ∧
      (l1.WriteAll w1 bs).1.read (l.name ++ "." ++ w.today.format) =
        w1.read (l.name ++ "." ++ w.today.format) ∧
      (∀ p, p ≠ l.name → (l1.WriteAll w1 bs).1.read p = w1.read p) ∧
      ((∀ x ∈ w1.script, x = none) →
        (l1.WriteAll w1 bs).1.read l.name = some bs.flatten ∧
        (l1.WriteAll w1 bs).2 = bs.map (fun b => (b.length, none))) :=
  Rotate_then_writes w w1 l l1 bs hwf hr

/-- C2 at the scenario of the specification: `app.log` holds `hello`, `Rotate`
runs on 2024-03-15, then `world` is written. -/
theorem writes_after_rotate_go_to_new_file_witness :
    (lHello.Rotate wHello).2.2 = none ∧
    ((lHello.Rotate wHello).2.1.WriteAll (lHello.Rotate wHello).1 [bytes "world"]).1.read
      "app.log" = some (bytes "world") ∧
    ((lHello.Rotate wHello).2.1.WriteAll (lHello.Rotate wHello).1 [bytes "world"]).1.read
      "app.log.2024-03-15" = some (bytes "hello") ∧
    ((lHello.Rotate wHello).2.1.WriteAll (lHello.Rotate wHello).1 [bytes "world"]).1.trace =
      (lHello.Rotate wHello).1.trace ++ [Event.write 1 (bytes "world")] :=
  have h := writes_after_rotate_go_to_new_file wHello (lHello.Rotate wHello).1 lHello
    (lHello.Rotate wHello).2.1 [bytes "world"] (by decide) (triple_eta _ _ (by decide))
  ⟨by decide, by decide, by decide, by
    obtain ⟨hn, k, -, h2, -, -, -, h6, -⟩ := h
    subst h2
    exact h6⟩

/-- C3: start from a sink whose file `h0` is open, with any number of writers
and one `Rotate`, and run any schedule. Whenever a writer is inside
`l.file.Write(b)`, the receiver `f` it evaluated under the mutex is the one
its write is performed on, it is the file the sink holds at that moment, it is
not nil, it is `h0` or the file created by the `Rotate`, and it is an existing
file object that is not closed. -/
theorem write_sees_whole_open_file (w : World) (l : LogFile) (n h0 : Nat)
    (sched : List Action) (hl : l.file = some h0) (ho : w.isOpen h0 = true)
    (i : Nat) (b : List Nat) (f : Option Nat)
    (hcall : ((Conc.init w l n).run sched).writers[i]? = some (WriterPc.call b f)) :
    (∀ c, (((Conc.init w l n).run sched).stepWriter i c).world =
      (fileWrite ((Conc.init w l n).run sched).world f b).1) ∧
    f = ((Conc.init w l n).run sched).file ∧
    ∃ x, f = some x ∧ (x = h0 ∨ ((Conc.init w l n).run sched).created = some x) ∧
      ((Conc.init w l n).run sched).world.isOpen x = true := by
  obtain ⟨-, h2, ⟨x, hx1, hx2, hx3⟩, -⟩ :=
    Inv_run h0 sched (Conc.init w l n) (Inv_init w l n h0 hl ho)
  have hf := h2 i b f hcall
  refine ⟨?_, hf, x, hf.trans hx1, hx3, hx2⟩
  intro c
  simp only [Conc.stepWriter, hcall]

/-- C3 on two schedules over `app.log`: a writer inside `Write` on file 0
while `Rotate` waits for the mutex with file 1 created, and a writer inside
`Write` on file 1 after `Rotate` has closed file 0. -/
theorem write_sees_whole_open_file_witness :
    (((Conc.init wHello lHello 2).run schedDuring).writers[0]? =
        some (WriterPc.call (bytes "hi") (some 0)) ∧
      ((Conc.init wHello lHello 2).run schedDuring).rot = .lock 1 ∧
      ((Conc.init wHello lHello 2).run schedDuring).world.isOpen 0 = true) ∧
    (((Conc.init wHello lHello 2).run schedAfter).writers[1]? =
        some (WriterPc.call (bytes "hi") (some 1)) ∧
      ((Conc.init wHello lHello 2).run schedAfter).rot = .done none ∧
      ((Conc.init wHello lHello 2).run schedAfter).world.isOpen 0 = false ∧
      ((Conc.init wHello lHello 2).run schedAfter).world.isOpen 1 = true) :=
  have h1 := write_sees_whole_open_file wHello lHello 2 0 schedDuring rfl (by decide)
    0 (bytes "hi") (some 0) (by decide)
  have h2 := write_sees_whole_open_file wHello lHello 2 0 schedAfter rfl (by decide)
    1 (bytes "hi") (some 1) (by decide)
  ⟨⟨by decide, by decide, by
      obtain ⟨-, -, x, hx, -, hopen⟩ := h1
      cases hx
      exact hopen⟩,
   ⟨by decide, by decide, by decide, by
      obtain ⟨-, -, x, hx, -, hopen⟩ := h2
      cases hx
      exact hopen⟩⟩

/-- C4: when the first step of `Rotate` went through and creating the new
resource fails with `e`, `Rotate` returns `e`; the sink keeps the file it had
and no file object has changed, so that file has not been closed; the only
calls made are the existence check, the rename if there was one, and the
create; and the rename is not undone: the directory is as the first step left
it, so that, the existence check having found the resource, the old content
is at the archival name and nothing is at the logical name. -/
theorem rotate_create_failure_aborts (w wa : World) (l : LogFile) (e : Error)
    (ha : l.archive w = (wa, none)) (hc : (osCreate wa l.name).2 = .error e) :
    (l.Rotate w).2.2 = some e ∧ (l.Rotate w).2.1 = l ∧
    (l.Rotate w).1.files = w.files ∧
    (l.Rotate w).1.trace = w.trace ++
      (match (osStat w l.name).2 with
       | none => [.stat l.name, .rename l.name (l.name ++ "." ++ w.today.format)]
       | some _ => [.stat l.name]) ++ [.create l.name] ∧
    (l.Rotate w).1.dir = wa.dir ∧ (l.Rotate w).1.store = w.store ∧
    ((osStat w l.name).2 = none →
      (l.Rotate w).1.read l.name = none ∧
      ∀ c, w.read l.name = some c →
        (l.Rotate w).1.read (l.name ++ "." ++ w.today.format) = some c) ∧
    ((osStat w l.name).2 ≠ none → (l.Rotate w).1.dir = w.dir) := by
  have hc2 : osCreate wa l.name = ((osCreate wa l.name).1, .error e) := Prod.ext rfl hc
  obtain ⟨hw, -⟩ := osCreate_err hc2
  obtain ⟨hst, hfi, -, harch⟩ := archive_ok ha
  have htr := archive_trace w l
  rw [ha] at htr
  simp only at htr
  rw [Rotate_create_err ha hc2, hw]
  refine ⟨rfl, rfl, hfi, ?_, rfl, hst, ?_, ?_⟩
  · show wa.trace ++ [Event.create l.name] = _
    rw [htr]
    rfl
  · intro hstat
    rcases harch with ⟨-, hno, hA, -, -, -⟩ | ⟨hbad, -⟩
    swap
    · exact absurd hstat hbad
    refine ⟨?_, ?_⟩
    · show (wa.lookup l.name).map wa.store = none
      rw [hno]
      rfl
    · intro c hcw
      show (wa.lookup (archiveName w l)).map wa.store = some c
      rw [hA, hst]
      exact hcw
  · intro hstat
    rcases harch with ⟨hgood, -⟩ | ⟨-, rfl⟩
    · exact absurd hgood hstat
    · rfl

/-- C4 at `app.log` holding `hello` with a create that fails with `ENOSPC`. -/
theorem rotate_create_failure_aborts_witness :
    (lHello.Rotate wCreateFails).2.2 = some (.path "open" "app.log" 28) ∧
    (lHello.Rotate wCreateFails).2.1 = lHello ∧
    (lHello.Rotate wCreateFails).1.files = wCreateFails.files ∧
    (lHello.Rotate wCreateFails).1.read "app.log" = none ∧
    (lHello.Rotate wCreateFails).1.read "app.log.2024-03-15" = some (bytes "hello") :=
  have h := rotate_create_failure_aborts wCreateFails (lHello.archive wCreateFails).1 lHello
    (.path "open" "app.log" 28) (Prod.ext rfl (by decide)) rfl
  ⟨h.1, h.2.1, h.2.2.1, (h.2.2.2.2.2.2.1 (by decide)).1,
    (h.2.2.2.2.2.2.1 (by decide)).2 (bytes "hello") (by decide)⟩

/-- C5: among the calls that `Rotate` makes, a close is made only on the file
the sink had before, and only as the last call, right after the new file has
been installed in the sink; once the new file is created and the sink had a
file `h`, `Rotate` returns exactly what closing `h` returns, so a close error
is returned to the caller, while the sink holds the new file and every later
`Write` goes to it; a sink that had no file sees no close at all. -/
theorem rotate_closes_old_file_after_install (w : World) (l : LogFile) :
    (∀ T x, (l.Rotate w).1.trace = w.trace ++ T → Event.close x ∈ T →
      ∃ pre f, T = pre ++ [.install f, .close x] ∧ (∀ y, Event.close y ∉ pre) ∧
        (∀ g, Event.install g ∉ pre) ∧ l.file = some x ∧ (l.Rotate w).2.1.file = some f) ∧
    (∀ wa wc f h, l.archive w = (wa, none) → osCreate wa l.name = (wc, .ok f) →
      l.file = some h →
        (l.Rotate w).1.trace = wc.trace ++ [.install f, .close h] ∧
        (l.Rotate w).2.2 = (fileClose (wc.log (.install f)) h).2 ∧
        (l.Rotate w).2.1 = { l with file := some f } ∧
        ∀ v bs, ((l.Rotate w).2.1.WriteAll v bs).1.trace =
          v.trace ++ bs.map (fun b => Event.write f b)) ∧
    (l.file = none → ∀ T x, (l.Rotate w).1.trace = w.trace ++ T → Event.close x ∉ T) := by
  refine ⟨fun T x hT hx => Rotate_close_last w l T hT x hx, ?_, ?_⟩
  · intro wa wc f h ha hc hl
    have h1 := Rotate_created_trace ha hc
    have h2 := Rotate_created ha hc
    have h3 := osCreate_trace wa l.name
    rw [hc] at h3
    simp only at h3
    rw [hl] at h1 h2
    simp only at h1 h2
    refine ⟨?_, ?_, ?_, ?_⟩
    · rw [h1, h3]
    · rw [h2]
    · rw [h2]
    · intro v bs
      apply WriteAll_trace
      rw [h2]
  · intro hl T x hT hx
    obtain ⟨_, _, _, _, _, hcon, _⟩ := Rotate_close_last w l T hT x hx
    rw [hl] at hcon
    cases hcon

/-- C5 at `app.log` holding `hello`, open on file object 0, with a close that
fails with `EIO`: the error is returned, the sink holds the new file object 1
and a later write goes to it. -/
theorem rotate_closes_old_file_after_install_witness :
    (lHello.Rotate wCloseFails).1.trace =
      [.stat "app.log", .rename "app.log" "app.log.2024-03-15", .create "app.log",
       .install 1, .close 0] ∧
    (lHello.Rotate wCloseFails).2.2 = some (.file "close" 5) ∧
    (lHello.Rotate wCloseFails).2.1 = { name := "app.log", file := some 1 } ∧
    ((lHello.Rotate wCloseFails).2.1.WriteAll (lHello.Rotate wCloseFails).1
      [bytes "world"]).1.trace =
      (lHello.Rotate wCloseFails).1.trace ++ [.write 1 (bytes "world")] :=
  have h := (rotate_closes_old_file_after_install wCloseFails lHello).2.1
    (lHello.archive wCloseFails).1
    (osCreate (lHello.archive wCloseFails).1 "app.log").1 1 0
    (Prod.ext rfl (by decide)) (Prod.ext rfl rfl) rfl
  ⟨by decide, by decide, by decide, h.2.2.2 _ [bytes "world"]⟩

/-- C6 where the code departs from it: `app.log` holds `hello` and the
existence check fails with `EIO`. `Rotate` does not return that error: it
falls back to creating the file, which truncates `app.log`, and returns no
error. Failures of the rename, the create, the close and the write are
returned, as `Rotate_failures_returned` shows. -/
theorem failed_stat_is_swallowed :
    (osStat wStatFails lHello.name).2 = some (.path "stat" "app.log" 5) ∧
    lHello.archive wStatFails = ((osStat wStatFails lHello.name).1, none) ∧
    (lHello.Rotate wStatFails).2.2 = none ∧
    (lHello.Rotate wStatFails).2.1.file = some 1 ∧
    (lHello.Rotate wStatFails).1.trace.drop 1 = [.create "app.log", .install 1, .close 0] :=
  ⟨by decide, Prod.ext rfl (by decide), by decide, by decide, by decide⟩

/-- C7 where the code departs from it: `app.log` holds `hello`; a first
`Rotate` works and archives `hello`; `world` is written; at the second
`Rotate`, the same day, the existence check fails with `EIO`. Both calls
return no error, yet the archive still holds `hello`, `app.log` is empty and
`world` is nowhere. When the second check works,
`second_rotation_replaces_archive` gives what C7 says. -/
theorem second_rotation_after_failed_stat_keeps_first_archive :
    (lHello.Rotate wSecondStatFails).2.2 = none ∧
    ((lHello.Rotate wSecondStatFails).2.1.WriteAll (lHello.Rotate wSecondStatFails).1
      [bytes "world"]).1.read "app.log" = some (bytes "world") ∧
    ((lHello.Rotate wSecondStatFails).2.1.Rotate
      ((lHello.Rotate wSecondStatFails).2.1.WriteAll (lHello.Rotate wSecondStatFails).1
        [bytes "world"]).1).2.2 = none ∧
    ((lHello.Rotate wSecondStatFails).2.1.Rotate
      ((lHello.Rotate wSecondStatFails).2.1.WriteAll (lHello.Rotate wSecondStatFails).1
        [bytes "world"]).1).1.read "app.log.2024-03-15" = some (bytes "hello") ∧
    ((lHello.Rotate wSecondStatFails).2.1.Rotate
      ((lHello.Rotate wSecondStatFails).2.1.WriteAll (lHello.Rotate wSecondStatFails).1
        [bytes "world"]).1).1.read "app.log" = some [] := by
  decide

/-- C8, as the code has it: when nothing is at the logical name and the
resource can be created there, `Rotate` makes no rename, creates an empty
resource at the logical name on an unused inode, leaves every other path as
it was and installs the new file in the sink; it returns no error when the
sink had no file, and otherwise returns whatever closing that file returns.
`NewLogFile` without a file runs this `Rotate` and returns, without error, a
sink whose file is open at offset 0 on the empty resource at the name. -/
theorem rotate_without_resource_creates_it (w : World) (l : LogFile) (f : Nat)
    (hno : w.read l.name = none)
    (hcan : (osCreate (osStat w l.name).1 l.name).2 = .ok f) :
    (l.Rotate w).1.trace = w.trace ++ [.stat l.name, .create l.name] ++
      (match l.file with
       | none => [.install f]
       | some h => [.install f, .close h]) ∧
    (l.Rotate w).1.dir = w.dir ++ [some l.name] ∧
    (∀ p, w.lookup p ≠ some w.freshIno) ∧
    (l.Rotate w).1.read l.name = some [] ∧
    (∀ p, p ≠ l.name → (l.Rotate w).1.read p = w.read p) ∧
    (l.Rotate w).2.1 = { l with file := some f } ∧
    (l.Rotate w).2.2 =
      (match l.file with
       | none => none
       | some h =>
         (fileClose ((osCreate (osStat w l.name).1 l.name).1.log (.install f)) h).2) ∧
    NewLogFile w l.name none =
      ((LogFile.Rotate w { name := l.name, file := none }).1,
        .ok { name := l.name, file := some f }) ∧
    (NewLogFile w l.name none).1.files[f]? = some ⟨w.freshIno, 0, false, false⟩ ∧
    (NewLogFile w l.name none).1.read l.name = some [] := by
  have hl : w.lookup l.name = none := by
    cases hq : w.lookup l.name with
    | none => rfl
    | some i => simp [World.read, hq] at hno
  have hsw := osStat_world w l.name
  rw [hsw] at hcan ⊢
  have hstat : ∃ e0, (osStat w l.name).2 = some e0 := by
    cases hs : (osStat w l.name).2 with
    | some e0 => exact ⟨e0, rfl⟩
    | none =>
      obtain ⟨-, i, hi⟩ := (osStat_ok_iff w l.name).mp hs
      rw [hl] at hi
      cases hi
  obtain ⟨e0, hs⟩ := hstat
  have hc : osCreate (w.advance (.stat l.name)) l.name =
      ((osCreate (w.advance (.stat l.name)) l.name).1, .ok f) := Prod.ext rfl hcan
  have hfresh : ∀ p, w.lookup p ≠ some w.freshIno := by
    intro p hp
    exact Nat.lt_irrefl _ (lookup_lt_freshIno w p _ hp)
  -- the facts hold for every sink with this name
  have main : ∀ m : LogFile, m.name = l.name →
      m.archive w = (w.advance (.stat l.name), none) ∧
      (m.Rotate w).1.dir = w.dir ++ [some l.name] ∧
      (m.Rotate w).1.store = Function.update w.store w.freshIno [] ∧
      (m.Rotate w).2.1 = { m with file := some f } ∧
      (m.Rotate w).1.read l.name = some [] ∧
      (∀ p, p ≠ l.name → (m.Rotate w).1.read p = w.read p) := by
    intro m hm
    have ha : m.archive w = (w.advance (.stat l.name), none) := by
      rw [← hm]
      exact archive_stat_err (hm ▸ hs)
    have hcm : osCreate (w.advance (.stat l.name)) m.name =
        ((osCreate (w.advance (.stat l.name)) l.name).1, .ok f) := by
      rw [hm]
      exact hc
    obtain ⟨hd, -, -, k, hk, hst, hother, hcase⟩ := Rotate_created_fs ha hcm
    have h2 := Rotate_created ha hcm
    rw [hm] at hk hother hcase
    rcases hcase with ⟨hbad, -⟩ | ⟨-, hkf, hdir⟩
    · rw [advance_lookup, hl] at hbad
      cases hbad
    rw [advance_freshIno] at hkf
    subst hkf
    rw [advance_dir] at hdir
    refine ⟨ha, hd.trans hdir, hst, ?_, ?_, ?_⟩
    · rw [h2]
      cases m.file <;> rfl
    · simp [World.read, lookup_of_dir hd, hk, hst]
    · intro p hp
      rw [World.read, World.read, lookup_of_dir hd, hother p hp, advance_lookup]
      cases hq : w.lookup p with
      | none => rfl
      | some j =>
        have := lookup_lt_freshIno w p j hq
        simp [hst, Function.update, Nat.ne_of_lt this]
  obtain ⟨ha, m1, -, m3, m4, m5⟩ := main l rfl
  have htr := Rotate_created_trace ha hc
  simp only [advance_trace] at htr
  have hnew : NewLogFile w l.name none =
      ((LogFile.Rotate w { name := l.name, file := none }).1,
        .ok { name := l.name, file := some f }) := by
    have hr := Rotate_created (l := { name := l.name, file := none })
      (main { name := l.name, file := none } rfl).1 hc
    simp only at hr
    simp only [NewLogFile, hr]
  obtain ⟨han, -, -, -, n4, -⟩ := main { name := l.name, file := none } rfl
  obtain ⟨k, ck, -, -, cf, -, -, -, ccase⟩ := osCreate_state hc
  have hkf : k = w.freshIno := by
    rcases ccase with ⟨hbad, -⟩ | ⟨-, hkf, -⟩
    · rw [advance_lookup, hl] at hbad
      cases hbad
    · simpa using hkf
  subst hkf
  have hfiles := Rotate_created_files (l := { name := l.name, file := none })
    han hc (by intro h hh; cases hh)
  refine ⟨by simpa using htr, m1, hfresh, m4, m5, m3, ?_, hnew, ?_, ?_⟩
  · rw [Rotate_created ha hc]
    cases l.file <;> rfl
  · rw [hnew]
    exact hfiles.2.2.1 _ ck
  · rw [hnew]
    exact n4

/-- C8 as the code has it, at the first start: nothing is at `app.log` and
`NewLogFile` without a file returns a sink on a new empty `app.log`. -/
theorem rotate_without_resource_creates_it_witness :
    w0.read "app.log" = none ∧
    (lNew.Rotate w0).2.2 = none ∧
    (lNew.Rotate w0).1.trace = [.stat "app.log", .create "app.log", .install 0] ∧
    (NewLogFile w0 "app.log" none).1.read "app.log" = some [] ∧
    (NewLogFile w0 "app.log" none).1.files[0]? = some ⟨0, 0, false, false⟩ :=
  have h := rotate_without_resource_creates_it w0 lNew 0 (by decide) rfl
  ⟨by decide, h.2.2.2.2.2.2.1, h.1, h.2.2.2.2.2.2.2.2.2, h.2.2.2.2.2.2.2.2.1⟩

/-- C8 fails as stated: nothing is at `app.log`, the resource can be created,
the sink holds an open stream, and `Rotate` returns the error of closing that
stream. -/
theorem rotate_without_resource_can_return_error :
    wStream.read "app.log" = none ∧
    (osCreate (osStat wStream "app.log").1 "app.log").2 = .ok 1 ∧
    wStream.isOpen 0 = true ∧
    (LogFile.Rotate wStream { name := "app.log", file := some 0 }).2.2 =
      some (.file "close" 5) ∧
    (LogFile.Rotate wStream { name := "app.log", file := some 0 }).1.read "app.log" =
      some [] :=
  ⟨by decide, rfl, by decide, by decide, by decide⟩

/-- C9: `NewLogFile` with a non-nil file returns at once: no error, the world
untouched (so no rename, no create and no other call), the sink holding that
file; and every `Write` through the sink is the `Write` of that file, with its
byte count and its error, for any sequence of writes. -/
theorem new_with_file_adopts_it (w : World) (name : String) (h : Nat) :
    NewLogFile w name (some h) = (w, .ok { name := name, file := some h }) ∧
    (∀ v b, LogFile.Write v { name := name, file := some h } b = fileWrite v (some h) b) ∧
    (∀ v bs, LogFile.WriteAll v { name := name, file := some h } bs =
      fileWriteAll v (some h) bs) ∧
    (∀ v bs, (LogFile.WriteAll v { name := name, file := some h } bs).1.trace =
      v.trace ++ bs.map (fun b => Event.write h b)) :=
  ⟨rfl, fun _ _ => rfl, fun v bs => WriteAll_eq _ bs v,
    fun v bs => WriteAll_trace _ h rfl bs v⟩

/-- C9 at `app.log` holding `hello`, adopted through file object 0: the
constructor makes no call, and a write of `world` lands after `hello`. -/
theorem new_with_file_adopts_it_witness :
    NewLogFile wHello "app.log" (some 0) = (wHello, .ok lHello) ∧
    (lHello.Write wHello (bytes "world")).2 = (5, none) ∧
    (lHello.Write wHello (bytes "world")).1.read "app.log" = some (bytes "helloworld") ∧
    (lHello.Write wHello (bytes "world")).1.trace = [.write 0 (bytes "world")] :=
  ⟨(new_with_file_adopts_it wHello "app.log" 0).1, by decide, by decide, by decide⟩

/-- C10, as the code has it: when the existence check finds a resource at the
logical name and the rename to the archival name then fails with `e`, `Rotate`
returns `e`, makes no call after the rename (so no create and no close),
leaves directory, contents and file objects as they were, and leaves the sink
with the file it had. -/
theorem rotate_rename_failure_aborts (w : World) (l : LogFile) (e : Error)
    (hstat : (osStat w l.name).2 = none)
    (hren : (osRename (osStat w l.name).1 l.name (l.name ++ "." ++ w.today.format)).2 =
      some e) :
    (∃ c, w.read l.name = some c) ∧
    (l.Rotate w).2.2 = some e ∧ (l.Rotate w).2.1 = l ∧
    (l.Rotate w).1.dir = w.dir ∧ (l.Rotate w).1.store = w.store ∧
    (l.Rotate w).1.files = w.files ∧
    (l.Rotate w).1.trace =
      w.trace ++ [.stat l.name, .rename l.name (l.name ++ "." ++ w.today.format)] := by
  rw [osStat_world] at hren
  have ha : l.archive w =
      ((osRename (w.advance (.stat l.name)) l.name (archiveName w l)).1, some e) := by
    rw [archive_stat_ok hstat]
    exact Prod.ext rfl hren
  have hr := Rotate_archive_err ha
  obtain ⟨f1, f2, f3, f4⟩ := osRename_err_frame
    (show osRename (w.advance (.stat l.name)) l.name (archiveName w l) = (_, some e) from
      Prod.ext rfl hren)
  obtain ⟨-, i, hi⟩ := (osStat_ok_iff w l.name).mp hstat
  rw [hr]
  refine ⟨⟨w.store i, by simp [World.read, hi]⟩, rfl, rfl, f1, f2, f3, ?_⟩
  simp only [f4, advance_trace, List.append_assoc, List.singleton_append]
  rfl

/-- C10 as the code has it, at `app.log` holding `hello` with a rename that
fails with `EACCES`. -/
theorem rotate_rename_failure_aborts_witness :
    (lHello.Rotate wRenameFails).2.2 = some (.path "rename" "app.log" 13) ∧
    (lHello.Rotate wRenameFails).2.1 = lHello ∧
    (lHello.Rotate wRenameFails).1.files = wRenameFails.files ∧
    (lHello.Rotate wRenameFails).1.trace =
      [.stat "app.log", .rename "app.log" "app.log.2024-03-15"] :=
  have h := rotate_rename_failure_aborts wRenameFails lHello
    (.path "rename" "app.log" 13) (by decide) (by decide)
  ⟨h.2.1, h.2.2.1, h.2.2.2.2.2.1, h.2.2.2.2.2.2⟩

/-- C10 fails as stated: `app.log` holds `hello` in a directory that cannot
be searched, so that renaming it fails; the existence check fails too,
`Rotate` makes no rename, attempts the create and returns the error of the
create, not that of a rename. -/
theorem rotate_unrenameable_can_return_create_error :
    wNoSearch.read "app.log" = some (bytes "hello") ∧
    (osRename wNoSearch "app.log" "app.log.2024-03-15").2 =
      some (.path "rename" "app.log" 13) ∧
    (osRename (osStat wNoSearch "app.log").1 "app.log" "app.log.2024-03-15").2 =
      some (.path "rename" "app.log" 13) ∧
    (lHello.Rotate wNoSearch).2.2 = some (.path "open" "app.log" 13) ∧
    (lHello.Rotate wNoSearch).1.trace = [.stat "app.log", .create "app.log"] := by
  decide

end entry
